import Mathlib

/-!
Shallow embedding of `scripts/omero/hcs_scripts/merge_plate_run.py` and
verification of the specified properties of `combine_plates`.

The OMERO object graph is modelled as a normalized relational state:
plates, wells, well samples and plate acquisitions (runs) live in lists,
related by integer ids, with a fresh-id counter standing in for the id
generator of the persistence layer.  Mutations of the script are modelled
as functional updates of that state; because the script saves each object
immediately (no transaction), every error value carries the state as
persisted at the point of failure.  Gateway `listChildren` calls query the
persisted state each time they run, which is mirrored here by reading the
current state at each corresponding point of the control flow.
-/

namespace MergePlateRun

/-- A well sample (one image placed in a well); `runId` models the optional
`plateAcquisition` reference of the sample, `none` when unset. -/
structure WellSample where
  id : Nat
  wellId : Nat
  runId : Option Nat
deriving DecidableEq, Repr

/-- A well of a plate, addressed inside its plate by its (row, column)
position. -/
structure Well where
  id : Nat
  plateId : Nat
  row : Nat
  col : Nat
deriving DecidableEq, Repr

/-- A plate acquisition (run): named, optionally time-stamped, owned by one
plate. -/
structure Run where
  id : Nat
  name : String
  startTime : Option Int
  plateId : Nat
deriving DecidableEq, Repr

/-- A plate; `screenId` models `plate.getParent()`, the optional parent
screen. -/
structure Plate where
  id : Nat
  name : String
  screenId : Option Nat
deriving DecidableEq, Repr

/-- The persisted OMERO object graph as seen through the connection, plus
the id generator of the persistence layer. -/
structure OmeroState where
  plates : List Plate
  wells : List Well
  samples : List WellSample
  runs : List Run
  nextId : Nat
deriving DecidableEq, Repr

/-- Python runtime errors raised by the script: `assert` statements raise
AssertionError, attribute access on `None` (or on a tuple) raises
AttributeError, and a missing dict key raises KeyError. -/
inductive PyError where
  | assertionError (msg : String)
  | attributeError (msg : String)
  | keyError
deriving DecidableEq, Repr

/-- `conn.getObject("Plate", pid)`. -/
def getPlate (s : OmeroState) (pid : Nat) : Option Plate :=
  s.plates.find? (fun p => p.id == pid)

/-- `plate.listChildren()`: the wells of a plate. -/
def plateWells (s : OmeroState) (pid : Nat) : List Well :=
  s.wells.filter (fun w => w.plateId == pid)

/-- `well.listChildren()`: the samples of a well. -/
def wellSamples (s : OmeroState) (wid : Nat) : List WellSample :=
  s.samples.filter (fun ws => ws.wellId == wid)

/-- `plate.listPlateAcquisitions()`: the runs of a plate. -/
def plateRuns (s : OmeroState) (pid : Nat) : List Run :=
  s.runs.filter (fun r => r.plateId == pid)

/-- `conn.getObject("PlateAcquisition", rid)`. -/
def findRun (s : OmeroState) (rid : Nat) : Option Run :=
  s.runs.find? (fun r => r.id == rid)

/-- Lines 71-80: build a PlateAcquisition named after the run-less plate,
attach all of the plate's well samples to it, and save it.  Saving the
acquisition with `addAllWellSampleSet` persists the sample
`plateAcquisition` back-references. -/
def synthesizeRun (s : OmeroState) (p : Plate) : OmeroState :=
  let rid := s.nextId
  let wids := (plateWells s p.id).map (fun w => w.id)
  { s with
    runs := s.runs ++ [{ id := rid, name := p.name, startTime := none, plateId := p.id }],
    samples := s.samples.map (fun ws =>
      if wids.contains ws.wellId then { ws with runId := some rid } else ws),
    nextId := s.nextId + 1 }

/-- Lines 66-80: for each source plate id, load the plate and synthesize a
run when it has none.  A source id that resolves to no plate yields `None`,
on which `listPlateAcquisitions` raises AttributeError. -/
def ensureRuns : List Nat → OmeroState → Except (PyError × OmeroState) OmeroState
  | [], s => .ok s
  | pid :: rest, s =>
    match getPlate s pid with
    | none =>
      .error (.attributeError "NoneType object has no attribute listPlateAcquisitions", s)
    | some p =>
      if (plateRuns s p.id).isEmpty then ensureRuns rest (synthesizeRun s p)
      else ensureRuns rest s

/-- Lines 82-84: reload the source plates and expand every plate to its
(plate, run) pairs. -/
def plateWorkList (s : OmeroState) (srcIds : List Nat) : List (Plate × Run) :=
  srcIds.flatMap (fun pid =>
    match getPlate s pid with
    | some p => (plateRuns s p.id).map (fun r => (p, r))
    | none => [])

/-- Line 86: each source id names a run; its plate is the run's parent.
Ids that resolve to no run are skipped by `getObjects`. -/
def acqWorkList (s : OmeroState) (srcIds : List Nat) : List (Plate × Run) :=
  srcIds.flatMap (fun rid =>
    match findRun s rid with
    | some r =>
      match getPlate s r.plateId with
      | some p => [(p, r)]
      | none => []
    | none => [])

/-- Python `set(...)`: duplicate ids collapse (iteration order of a Python
set is unspecified; this dedup is one deterministic choice). -/
def dedupIds : List Nat → List Nat
  | [] => []
  | x :: xs => if (dedupIds xs).contains x then dedupIds xs else x :: dedupIds xs

/-- Lines 61-86: resolve the (plate, run) work list.  In Plate mode the
target's own id is first removed from the source set. -/
def resolveWorkList (s : OmeroState) (targetPlateId : Nat) (sourceIds : List Nat)
    (sourceType : String) : Except (PyError × OmeroState) (OmeroState × List (Plate × Run)) :=
  if sourceType == "Plate" then
    match ensureRuns ((dedupIds sourceIds).filter (fun i => i != targetPlateId)) s with
    | .error e => .error e
    | .ok s1 => .ok (s1, plateWorkList s1 ((dedupIds sourceIds).filter (fun i => i != targetPlateId)))
  else
    .ok (s, acqWorkList s (dedupIds sourceIds))

/-- Python `sorted` is a stable ascending sort; it is modelled by a stable
insertion sort on a strict key comparison (an element is inserted behind
every earlier element whose key is not greater). -/
def insertBy (lt : Plate × Run → Plate × Run → Bool) (a : Plate × Run) :
    List (Plate × Run) → List (Plate × Run)
  | [] => [a]
  | b :: bs => if lt a b then a :: b :: bs else b :: insertBy lt a bs

/-- `sorted(l, key=...)` with the strict comparison of the keys. -/
def sortedBy (lt : Plate × Run → Plate × Run → Bool) (l : List (Plate × Run)) :
    List (Plate × Run) :=
  l.foldl (fun acc a => insertBy lt a acc) []

/-- Line 89 sort key: (plate name, run name), lexicographic, strict. -/
def plateRunNameLt (a b : Plate × Run) : Bool :=
  if a.1.name < b.1.name then true
  else if b.1.name < a.1.name then false
  else decide (a.2.name < b.2.name)

/-- Line 91 sort key: run name, strict. -/
def runNameLt (a b : Plate × Run) : Bool :=
  decide (a.2.name < b.2.name)

/-- Lines 88-95: order the work list.  In the "Acquisition start time"
branch, line 94 asserts that every run has a start time; line 95 then calls
`sorted` with `key=lambda x: x.getStartTime()` where `x` is a (plate, run)
tuple, so as soon as the key function is applied to an element (i.e. the
list is non-empty) an AttributeError is raised.  A `sort_way` matching no
branch (such as the offered option "Plate name") leaves the list as it is. -/
def sortWorkList (sortWay : String) (l : List (Plate × Run)) :
    Except PyError (List (Plate × Run)) :=
  if sortWay == "Plate & run name" then
    .ok (sortedBy plateRunNameLt l)
  else if sortWay == "Acquisition name" then
    .ok (sortedBy runNameLt l)
  else if sortWay == "Acquisition start time" then
    if (l.map (fun pr => pr.2.startTime)).contains none then
      .error (.assertionError "Some runs do not have a start acquisition time.")
    else if l.isEmpty then
      .ok l
    else
      .error (.attributeError "tuple object has no attribute getStartTime")
  else
    .ok l

/-- Lines 99-112: collect, over the work-list plates plus the target, the
ids of plates without a screen and the distinct screen ids; assert that no
plate lacks a screen, then that exactly one screen is present. -/
def screenCheck (target : Plate) (wl : List (Plate × Run)) : Except PyError Unit :=
  let involved := wl.map (fun pr => pr.1) ++ [target]
  let plateL := (involved.filter (fun p => p.screenId == none)).map (fun p => p.id)
  let screenL := dedupIds (involved.filterMap (fun p => p.screenId))
  if plateL.length != 0 then
    .error (.assertionError "Screen safety error: plate not part of a screen")
  else if screenL.length != 1 then
    .error (.assertionError "Screen safety error: Plates belong to different Screens")
  else
    .ok ()

/-- The dict key `well.getWellPos()` is determined by (row, column);
modelled as the pair itself. -/
def wellPos (w : Well) : Nat × Nat := (w.row, w.col)

/-- Lines 114-116 and 150-152: the position-to-well dict.  A later insert
overwrites an earlier one, so the list is reversed to make `lookup` (first
match) return the last insert.  Values are well ids. -/
def buildWellIndex (ws : List Well) : List ((Nat × Nat) × Nat) :=
  (ws.map (fun w => (wellPos w, w.id))).reverse

/-- Lines 121-129: scan one source plate's wells; every position absent
from the index gets a fresh well on the target plate, saved and added to
the index. -/
def createWellsForPlate (targetPlateId : Nat) :
    List Well → OmeroState × List ((Nat × Nat) × Nat) × Nat →
    OmeroState × List ((Nat × Nat) × Nat) × Nat
  | [], acc => acc
  | w :: rest, (s, d, cnt) =>
    if (d.lookup (wellPos w)).isSome then
      createWellsForPlate targetPlateId rest (s, d, cnt)
    else
      let nw : Well := { id := s.nextId, plateId := targetPlateId, row := w.row, col := w.col }
      createWellsForPlate targetPlateId rest
        ({ s with wells := s.wells ++ [nw], nextId := s.nextId + 1 },
          (wellPos w, nw.id) :: d, cnt + 1)

/-- Lines 119-129: populate the target with the wells it is missing,
scanning the work-list plates in order. -/
def createMissingWells (targetPlateId : Nat) :
    List Nat → OmeroState × List ((Nat × Nat) × Nat) × Nat →
    OmeroState × List ((Nat × Nat) × Nat) × Nat
  | [], acc => acc
  | pid :: rest, (s, d, cnt) =>
    createMissingWells targetPlateId rest
      (createWellsForPlate targetPlateId (plateWells s pid) (s, d, cnt))

/-- Line 138: `ws._obj.setWell(well_oi)`: re-point one sample to a target
well; persisted when the well is saved. -/
def repointSample (s : OmeroState) (sid twid : Nat) : OmeroState :=
  { s with samples := s.samples.map (fun ws =>
      if ws.id == sid then { ws with wellId := twid } else ws) }

/-- Lines 136-140: run the filtered iteration over one well's samples.
Evaluating the filter on a sample with no acquisition reference accesses
`_id` on `None` and raises AttributeError; a sample of the current run is
re-pointed to the target well and counted. -/
def migrateWell (rid twid : Nat) :
    List WellSample → OmeroState → Nat → Except (PyError × OmeroState) (OmeroState × Nat)
  | [], s, cnt => .ok (s, cnt)
  | ws :: rest, s, cnt =>
    match ws.runId with
    | none => .error (.attributeError "NoneType object has no attribute _id", s)
    | some r =>
      if r == rid then migrateWell rid twid rest (repointSample s ws.id twid) (cnt + 1)
      else migrateWell rid twid rest s cnt

/-- Lines 133-140: iterate the wells of the run's plate; the target well
for a position missing from the dict would raise KeyError. -/
def migratePlateWells (rid : Nat) (d : List ((Nat × Nat) × Nat)) :
    List Well → OmeroState → Nat → Except (PyError × OmeroState) (OmeroState × Nat)
  | [], s, cnt => .ok (s, cnt)
  | w :: rest, s, cnt =>
    match d.lookup (wellPos w) with
    | none => .error (.keyError, s)
    | some twid =>
      match migrateWell rid twid (wellSamples s w.id) s cnt with
      | .error e => .error e
      | .ok (s1, cnt1) => migratePlateWells rid d rest s1 cnt1

/-- Lines 145-146: `run._obj.setPlate(target_plate._obj)` and save. -/
def reassignRun (s : OmeroState) (rid targetPlateId : Nat) : OmeroState :=
  { s with runs := s.runs.map (fun r =>
      if r.id == rid then { r with plateId := targetPlateId } else r) }

/-- Lines 131-152: fold the runs into the target one at a time; after each
run the target plate is reloaded and the position dict rebuilt from it. -/
def foldRuns (targetPlateId : Nat) :
    List (Nat × Nat) → List ((Nat × Nat) × Nat) → OmeroState → Nat →
    Except (PyError × OmeroState) (OmeroState × Nat)
  | [], _, s, cnt => .ok (s, cnt)
  | (pid, rid) :: rest, d, s, cnt =>
    match migratePlateWells rid d (plateWells s pid) s cnt with
    | .error e => .error e
    | .ok (s1, cnt1) =>
      let s2 := reassignRun s1 rid targetPlateId
      foldRuns targetPlateId rest (buildWellIndex (plateWells s2 targetPlateId)) s2 cnt1

/-- Lines 155-158: the summary message; the wells-created clause is
appended only when wells were created. -/
def summaryMessage (nSamples nRuns targetPlateId nNewWells : Nat) : String :=
  toString nSamples ++ " Images from " ++ toString nRuns ++
    " Runs merged into Plate:" ++ toString targetPlateId ++ "." ++
    (if nNewWells > 0 then " " ++ toString nNewWells ++ " Wells created." else "")

/-- Lines 114-160: the mutation phase run after all checks passed — index
the target wells, create the missing wells, fold the runs in and build the
summary. -/
def mergePhase (s1 : OmeroState) (targetPlateId : Nat) (wl : List (Plate × Run)) :
    Except (PyError × OmeroState) (String × OmeroState) :=
  match createMissingWells targetPlateId (wl.map (fun pr => pr.1.id))
      (s1, buildWellIndex (plateWells s1 targetPlateId), 0) with
  | (s2, d, newWellCount) =>
    match foldRuns targetPlateId (wl.map (fun pr => (pr.1.id, pr.2.id))) d s2 0 with
    | .error e => .error e
    | .ok (s3, cnt) =>
      .ok (summaryMessage cnt wl.length targetPlateId newWellCount, s3)

/-- Lines 39-160: `combine_plates`.  The state travels through every step;
an error carries the state persisted up to the failure. -/
def combine_plates (s : OmeroState) (targetPlateId : Nat) (sourceIds : List Nat)
    (sourceType : String) (sortWay : String) (sameScreen : Bool) :
    Except (PyError × OmeroState) (String × OmeroState) :=
  match getPlate s targetPlateId with
  | none => .error (.assertionError "Target Plate not found.", s)
  | some target =>
    match resolveWorkList s targetPlateId sourceIds sourceType with
    | .error e => .error e
    | .ok (s1, wl0) =>
      match sortWorkList sortWay wl0 with
      | .error e => .error (e, s1)
      | .ok wl =>
        match (if sameScreen then screenCheck target wl else .ok ()) with
        | .error e => .error (e, s1)
        | .ok _ => mergePhase s1 targetPlateId wl

/-- Lines 176-180 in `run_script`: the ordering options offered to the
user. -/
def sort_ways : List String := ["Plate name", "Acquisition name", "Acquisition start time"]

/-- Lines 171-174 in `run_script`: the source kinds offered to the user. -/
def source_types : List String := ["Plate", "Acquisition"]

/-- Number of persisted samples that belong to one of the given runs. -/
def countMergedSamples (s : OmeroState) (rids : List Nat) : Nat :=
  (s.samples.filter (fun ws =>
    match ws.runId with
    | some r => rids.contains r
    | none => false)).length

/-!  Basic lemmas about the dedup used for Python sets.  -/

theorem dedupIds_cons_mem (x : Nat) (xs : List Nat) (h : x ∈ dedupIds xs) :
    dedupIds (x :: xs) = dedupIds xs := by
  simp only [dedupIds]
  rw [if_pos (List.elem_iff.mpr h)]

theorem dedupIds_cons_not_mem (x : Nat) (xs : List Nat) (h : x ∉ dedupIds xs) :
    dedupIds (x :: xs) = x :: dedupIds xs := by
  simp only [dedupIds]
  rw [if_neg (fun hc => h (List.elem_iff.mp hc))]

theorem mem_dedupIds (a : Nat) (l : List Nat) : a ∈ dedupIds l ↔ a ∈ l := by
  induction l with
  | nil => simp [dedupIds]
  | cons x xs ih =>
    by_cases h : x ∈ dedupIds xs
    · rw [dedupIds_cons_mem x xs h, List.mem_cons, ih]
      constructor
      · exact fun ha => Or.inr ha
      · rintro (rfl | ha)
        · exact ih.mp h
        · exact ha
    · rw [dedupIds_cons_not_mem x xs h, List.mem_cons, List.mem_cons, ih]

theorem dedupIds_nodup (l : List Nat) : (dedupIds l).Nodup := by
  induction l with
  | nil => simp [dedupIds]
  | cons x xs ih =>
    by_cases h : x ∈ dedupIds xs
    · rw [dedupIds_cons_mem x xs h]; exact ih
    · rw [dedupIds_cons_not_mem x xs h]
      exact List.nodup_cons.mpr ⟨h, ih⟩

theorem dedupIds_eq_nil (l : List Nat) : dedupIds l = [] ↔ l = [] := by
  induction l with
  | nil => simp [dedupIds]
  | cons x xs ih =>
    constructor
    · intro h
      by_cases hc : x ∈ dedupIds xs
      · rw [dedupIds_cons_mem x xs hc] at h
        rw [h] at hc
        exact absurd hc (List.not_mem_nil x)
      · rw [dedupIds_cons_not_mem x xs hc] at h
        exact absurd h (List.cons_ne_nil _ _)
    · intro h; exact absurd h (List.cons_ne_nil x xs)

theorem dedupIds_eq_singleton (l : List Nat) (a : Nat) :
    dedupIds l = [a] ↔ (l ≠ [] ∧ ∀ x ∈ l, x = a) := by
  induction l with
  | nil => simp [dedupIds]
  | cons x xs ih =>
    by_cases hc : x ∈ dedupIds xs
    · rw [dedupIds_cons_mem x xs hc]
      have hcx : x ∈ xs := (mem_dedupIds x xs).mp hc
      constructor
      · intro h
        obtain ⟨hne, hall⟩ := ih.mp h
        refine ⟨List.cons_ne_nil _ _, ?_⟩
        intro y hy
        rcases List.mem_cons.mp hy with rfl | hy2
        · exact hall _ hcx
        · exact hall _ hy2
      · rintro ⟨-, hall⟩
        refine ih.mpr ⟨?_, fun y hy => hall y (List.mem_cons_of_mem _ hy)⟩
        intro hnil; rw [hnil] at hcx; exact absurd hcx (List.not_mem_nil x)
    · rw [dedupIds_cons_not_mem x xs hc]
      have hcx : x ∉ xs := fun hx => hc ((mem_dedupIds x xs).mpr hx)
      constructor
      · intro h
        obtain ⟨rfl, hnil⟩ := List.cons_eq_cons.mp h
        have hxsnil : xs = [] := (dedupIds_eq_nil xs).mp hnil
        subst hxsnil
        exact ⟨List.cons_ne_nil _ _, by simp⟩
      · rintro ⟨-, hall⟩
        have hx : x = a := hall x (List.mem_cons_self x xs)
        subst hx
        have hxsnil : xs = [] := by
          by_contra hne
          obtain ⟨y, hy⟩ := List.exists_mem_of_ne_nil xs hne
          have hyx : y = x := hall y (List.mem_cons_of_mem _ hy)
          exact hcx (hyx ▸ hy)
        subst hxsnil
        simp [dedupIds]

/-!  Concrete scenes used to evaluate the code on specific inputs.  -/

/-- Target plate 1 and source plate 2 on the same screen; plate 2 carries
run 300 with a start time and one well with one sample of that run. -/
def stC1 : OmeroState :=
  { plates := [{ id := 1, name := "T", screenId := some 10 },
               { id := 2, name := "S", screenId := some 10 }],
    wells := [{ id := 100, plateId := 1, row := 0, col := 0 },
              { id := 101, plateId := 2, row := 0, col := 0 }],
    samples := [{ id := 200, wellId := 101, runId := some 300 }],
    runs := [{ id := 300, name := "R1", startTime := some 5, plateId := 2 }],
    nextId := 400 }

/-- The same scene except that run 300 has no start time. -/
def stC1b : OmeroState :=
  { plates := [{ id := 1, name := "T", screenId := some 10 },
               { id := 2, name := "S", screenId := some 10 }],
    wells := [{ id := 100, plateId := 1, row := 0, col := 0 },
              { id := 101, plateId := 2, row := 0, col := 0 }],
    samples := [{ id := 200, wellId := 101, runId := some 300 }],
    runs := [{ id := 300, name := "R1", startTime := none, plateId := 2 }],
    nextId := 400 }

/-- Claim C1: for `order_by = Acquisition start time` the spec says the work
list is sorted ascending by run start time when every run has one, and the
operation fails with a ValidationError when one is missing.  The missing-time
half behaves as specified (AssertionError from line 94), but when every run
does have a start time the branch never sorts: line 95 applies
`getStartTime` to the (plate, run) tuple itself and the call dies with an
AttributeError on any non-empty work list.  This theorem evaluates the code
at a one-run work list whose run carries a start time (crash), and at the
same scene without the start time (the specified assertion). -/
theorem C1_start_time_ordering_crashes :
    combine_plates stC1 1 [2] "Plate" "Acquisition start time" true =
      .error (.attributeError "tuple object has no attribute getStartTime", stC1) ∧
    combine_plates stC1b 1 [2] "Plate" "Acquisition start time" true =
      .error (.assertionError "Some runs do not have a start acquisition time.", stC1b) :=
  ⟨rfl, rfl⟩

/-- Claim C4: the parameter enum offers the label "Plate name", but the sort
branches match "Plate & run name", "Acquisition name" and "Acquisition start
time" only; with "Plate name" every work list falls through unsorted and
without an error. -/
theorem C4_plate_name_silent_fall_through :
    "Plate name" ∈ sort_ways ∧ "Plate name" ≠ "Plate & run name" ∧
    ∀ l : List (Plate × Run), sortWorkList "Plate name" l = .ok l :=
  ⟨by simp [sort_ways], by decide, fun l => rfl⟩

/-- Target plate 1 and source plate 2, both outside any screen; plate 2 has
a run, so the state reaching the screen check is the initial one. -/
def stC3 : OmeroState :=
  { plates := [{ id := 1, name := "T", screenId := none },
               { id := 2, name := "S", screenId := none }],
    wells := [], samples := [],
    runs := [{ id := 300, name := "R1", startTime := some 5, plateId := 2 }],
    nextId := 400 }

/-- Claim C3 counterexample: with safety enabled and every involved plate
(target and source) belonging to no screen, the merge nevertheless fails
with a screen-safety error, because the check first asserts that the list
of screen-less plates is empty and the target itself is always in that
list. -/
theorem C3_counterexample_all_screenless_rejected :
    combine_plates stC3 1 [2] "Plate" "Acquisition name" true =
      .error (.assertionError "Screen safety error: plate not part of a screen", stC3) :=
  rfl

/-- Claim C3 (amended): with safety enabled, the screen check passes exactly
when every involved plate — the target and every work-list plate — belongs
to one and the same screen; any screen-less involved plate (in particular
the all-screen-less configuration, which always contains the target) is
rejected. -/
theorem C3_screen_check_requires_single_screen (target : Plate) (wl : List (Plate × Run)) :
    screenCheck target wl = .ok () ↔
      ∃ sid, target.screenId = some sid ∧ ∀ pr ∈ wl, pr.1.screenId = some sid := by
  simp only [screenCheck]
  constructor
  · intro h
    split_ifs at h with h1 h2
    simp only [bne_iff_ne, ne_eq, not_not] at h1 h2
    have hfil : (wl.map (fun pr => pr.1) ++ [target]).filter (fun p => p.screenId == none) = [] := by
      have hmapnil := List.length_eq_zero.mp h1
      exact List.map_eq_nil_iff.mp hmapnil
    have hnone : ∀ p ∈ wl.map (fun pr => pr.1) ++ [target], p.screenId ≠ none := by
      intro p hp hcon
      have hmem := List.filter_eq_nil_iff.mp hfil p hp
      simp [hcon] at hmem
    obtain ⟨a, ha⟩ := List.length_eq_one.mp h2
    obtain ⟨-, hall⟩ := (dedupIds_eq_singleton _ a).mp ha
    have hsome : ∀ p ∈ wl.map (fun pr => pr.1) ++ [target], p.screenId = some a := by
      intro p hp
      rcases hop : p.screenId with _ | v
      · exact absurd hop (hnone p hp)
      · have hv : v ∈ (wl.map (fun pr => pr.1) ++ [target]).filterMap (fun p => p.screenId) :=
          List.mem_filterMap.mpr ⟨p, hp, hop⟩
        rw [hall v hv]
    refine ⟨a, hsome target (by simp), ?_⟩
    intro pr hpr
    exact hsome pr.1 (by simp only [List.mem_append, List.mem_map]; exact Or.inl ⟨pr, hpr, rfl⟩)
  · rintro ⟨sid, htgt, hall⟩
    have hsome : ∀ p ∈ wl.map (fun pr => pr.1) ++ [target], p.screenId = some sid := by
      intro p hp
      rcases List.mem_append.mp hp with hp1 | hp2
      · obtain ⟨pr, hpr, rfl⟩ := List.mem_map.mp hp1
        exact hall pr hpr
      · rw [List.mem_singleton.mp hp2]; exact htgt
    have hfil : (wl.map (fun pr => pr.1) ++ [target]).filter (fun p => p.screenId == none) = [] := by
      apply List.filter_eq_nil_iff.mpr
      intro p hp
      simp [hsome p hp]
    have hdedup : dedupIds ((wl.map (fun pr => pr.1) ++ [target]).filterMap (fun p => p.screenId)) = [sid] := by
      apply (dedupIds_eq_singleton _ sid).mpr
      constructor
      · have : sid ∈ (wl.map (fun pr => pr.1) ++ [target]).filterMap (fun p => p.screenId) :=
          List.mem_filterMap.mpr ⟨target, by simp, htgt⟩
        intro hnil; rw [hnil] at this; exact absurd this (List.not_mem_nil sid)
      · intro x hx
        obtain ⟨p, hp, hpx⟩ := List.mem_filterMap.mp hx
        rw [hsome p hp] at hpx
        exact (Option.some_inj.mp hpx).symm
    rw [hfil, hdedup]
    simp

/-!  State evolution across the pre-check phase (run synthesis only).  -/

/-- `s1` differs from `s` at most by run synthesis: plates and wells are
unchanged, every sample keeps its identity and its well (only the run
reference may have been assigned), and the pre-existing runs are an
unchanged prefix of the run table (in particular no well was created, no
sample was re-pointed, and no pre-existing run was reassigned). -/
def synthOnly (s s1 : OmeroState) : Prop :=
  s1.plates = s.plates ∧
  s1.wells = s.wells ∧
  s1.samples.map (fun ws => (ws.id, ws.wellId)) = s.samples.map (fun ws => (ws.id, ws.wellId)) ∧
  s1.runs.take s.runs.length = s.runs ∧
  s.nextId ≤ s1.nextId

theorem synthOnly_refl (s : OmeroState) : synthOnly s s :=
  ⟨rfl, rfl, rfl, List.take_length s.runs, Nat.le_refl _⟩

theorem synthOnly_trans {s1 s2 s3 : OmeroState}
    (h12 : synthOnly s1 s2) (h23 : synthOnly s2 s3) : synthOnly s1 s3 := by
  obtain ⟨hp12, hw12, hs12, hr12, hn12⟩ := h12
  obtain ⟨hp23, hw23, hs23, hr23, hn23⟩ := h23
  refine ⟨hp23.trans hp12, hw23.trans hw12, hs23.trans hs12, ?_, hn12.trans hn23⟩
  have hlen : s1.runs.length ≤ s2.runs.length := by
    have hl := congrArg List.length hr12
    rw [List.length_take] at hl
    exact min_eq_left_iff.mp hl
  calc s3.runs.take s1.runs.length
      = (s3.runs.take s2.runs.length).take s1.runs.length := by
        rw [List.take_take, min_eq_left hlen]
    _ = s2.runs.take s1.runs.length := by rw [hr23]
    _ = s1.runs := hr12

theorem synthOnly_synthesizeRun (s : OmeroState) (p : Plate) :
    synthOnly s (synthesizeRun s p) := by
  refine ⟨rfl, rfl, ?_, ?_, Nat.le_succ _⟩
  · show (s.samples.map fun ws =>
      if ((plateWells s p.id).map (fun w => w.id)).contains ws.wellId
      then { ws with runId := some s.nextId } else ws).map (fun ws => (ws.id, ws.wellId)) = _
    rw [List.map_map]
    apply List.map_congr_left
    intro ws hws
    simp only [Function.comp_apply]
    split <;> rfl
  · show (s.runs ++ [_]).take s.runs.length = s.runs
    exact List.take_left s.runs _

theorem ensureRuns_ok_synthOnly (idsL : List Nat) :
    ∀ s s1, ensureRuns idsL s = .ok s1 → synthOnly s s1 := by
  induction idsL with
  | nil =>
    intro s s1 h
    simp only [ensureRuns, Except.ok.injEq] at h
    rw [← h]; exact synthOnly_refl s
  | cons pid rest ih =>
    intro s s1 h
    simp only [ensureRuns] at h
    split at h
    · exact Except.noConfusion h
    · rename_i p hg
      split at h
      · exact synthOnly_trans (synthOnly_synthesizeRun s p) (ih _ _ h)
      · exact ih _ _ h

theorem ensureRuns_error_kind (idsL : List Nat) :
    ∀ s pe s1, ensureRuns idsL s = .error (pe, s1) →
      pe = .attributeError "NoneType object has no attribute listPlateAcquisitions" ∧
        synthOnly s s1 := by
  induction idsL with
  | nil =>
    intro s pe s1 h
    simp only [ensureRuns] at h
    exact Except.noConfusion h
  | cons pid rest ih =>
    intro s pe s1 h
    simp only [ensureRuns] at h
    split at h
    · simp only [Except.error.injEq, Prod.mk.injEq] at h
      obtain ⟨hpe, hs⟩ := h
      exact ⟨hpe.symm, hs ▸ synthOnly_refl s⟩
    · rename_i p hg
      split at h
      · obtain ⟨hpe, hsyn⟩ := ih _ _ _ h
        exact ⟨hpe, synthOnly_trans (synthOnly_synthesizeRun s p) hsyn⟩
      · exact ih _ _ _ h

theorem resolveWorkList_ok_synthOnly (s : OmeroState) (tid : Nat) (ids : List Nat)
    (sk : String) (s1 : OmeroState) (wl : List (Plate × Run))
    (h : resolveWorkList s tid ids sk = .ok (s1, wl)) : synthOnly s s1 := by
  unfold resolveWorkList at h
  by_cases hk : (sk == "Plate") = true
  · rw [if_pos hk] at h
    cases he : ensureRuns ((dedupIds ids).filter (fun i => i != tid)) s with
    | error e => rw [he] at h; cases h
    | ok s2 =>
      rw [he] at h
      simp only [Except.ok.injEq, Prod.mk.injEq] at h
      exact h.1 ▸ ensureRuns_ok_synthOnly _ _ _ he
  · rw [if_neg hk] at h
    simp only [Except.ok.injEq, Prod.mk.injEq] at h
    rw [← h.1]; exact synthOnly_refl s

theorem resolveWorkList_error_kind (s : OmeroState) (tid : Nat) (ids : List Nat)
    (sk : String) (pe : PyError) (s1 : OmeroState)
    (h : resolveWorkList s tid ids sk = .error (pe, s1)) :
    pe = .attributeError "NoneType object has no attribute listPlateAcquisitions" ∧
      synthOnly s s1 := by
  unfold resolveWorkList at h
  by_cases hk : (sk == "Plate") = true
  · rw [if_pos hk] at h
    cases he : ensureRuns ((dedupIds ids).filter (fun i => i != tid)) s with
    | error e =>
      rw [he] at h
      obtain ⟨pe2, s2⟩ := e
      simp only [Except.error.injEq, Prod.mk.injEq] at h
      obtain ⟨hpe, hs⟩ := h
      obtain ⟨hkind, hsyn⟩ := ensureRuns_error_kind _ _ _ _ he
      exact ⟨hpe ▸ hkind, hs ▸ hsyn⟩
    | ok s2 => rw [he] at h; cases h
  · rw [if_neg hk] at h; cases h

/-!  The folding phase raises only KeyError or AttributeError, never an
AssertionError; used to locate assertion failures before any well work.  -/

theorem migrateWell_error_kind (rid twid : Nat) (sl : List WellSample) :
    ∀ s cnt pe s1, migrateWell rid twid sl s cnt = .error (pe, s1) →
      pe = .attributeError "NoneType object has no attribute _id" := by
  induction sl with
  | nil =>
    intro s cnt pe s1 h
    simp only [migrateWell] at h
    exact Except.noConfusion h
  | cons ws rest ih =>
    intro s cnt pe s1 h
    simp only [migrateWell] at h
    split at h
    · simp only [Except.error.injEq, Prod.mk.injEq] at h
      exact h.1.symm
    · split at h
      · exact ih _ _ _ _ h
      · exact ih _ _ _ _ h

theorem migratePlateWells_error_kind (rid : Nat) (d : List ((Nat × Nat) × Nat))
    (wsL : List Well) :
    ∀ s cnt pe s1, migratePlateWells rid d wsL s cnt = .error (pe, s1) →
      pe = .keyError ∨ pe = .attributeError "NoneType object has no attribute _id" := by
  induction wsL with
  | nil =>
    intro s cnt pe s1 h
    simp only [migratePlateWells] at h
    exact Except.noConfusion h
  | cons w rest ih =>
    intro s cnt pe s1 h
    simp only [migratePlateWells] at h
    split at h
    · simp only [Except.error.injEq, Prod.mk.injEq] at h
      exact Or.inl h.1.symm
    · rename_i twid hl
      split at h
      · rename_i e hm
        obtain ⟨pe2, s2⟩ := e
        simp only [Except.error.injEq, Prod.mk.injEq] at h
        exact Or.inr (h.1 ▸ migrateWell_error_kind rid twid _ _ _ _ _ hm)
      · exact ih _ _ _ _ h

theorem foldRuns_error_kind (tid : Nat) (pairs : List (Nat × Nat)) :
    ∀ d s cnt pe s1, foldRuns tid pairs d s cnt = .error (pe, s1) →
      pe = .keyError ∨ pe = .attributeError "NoneType object has no attribute _id" := by
  induction pairs with
  | nil =>
    intro d s cnt pe s1 h
    simp only [foldRuns] at h
    exact Except.noConfusion h
  | cons pr rest ih =>
    intro d s cnt pe s1 h
    obtain ⟨pid, rid⟩ := pr
    simp only [foldRuns] at h
    split at h
    · rename_i e hm
      obtain ⟨pe2, s2⟩ := e
      simp only [Except.error.injEq, Prod.mk.injEq] at h
      exact h.1 ▸ migratePlateWells_error_kind rid d _ _ _ _ _ hm
    · exact ih _ _ _ _ _ h

theorem mergePhase_error_kind (s1 : OmeroState) (tid : Nat) (wl : List (Plate × Run))
    (pe : PyError) (s2 : OmeroState)
    (h : mergePhase s1 tid wl = .error (pe, s2)) :
    pe = .keyError ∨ pe = .attributeError "NoneType object has no attribute _id" := by
  unfold mergePhase at h
  rcases hcm : createMissingWells tid (wl.map (fun pr => pr.1.id))
      (s1, buildWellIndex (plateWells s1 tid), 0) with ⟨s3, d, k⟩
  rw [hcm] at h
  simp only [] at h
  split at h
  · rename_i e hf
    obtain ⟨pe2, s4⟩ := e
    simp only [Except.error.injEq, Prod.mk.injEq] at h
    exact h.1 ▸ foldRuns_error_kind _ _ _ _ _ _ _ hf
  · exact Except.noConfusion h

/-- Target plate 1 on screen 10; source plate 2 on screen 20 with no run,
one well and one sample.  Run synthesis fires for plate 2 before the screen
check rejects the merge. -/
def stC2 : OmeroState :=
  { plates := [{ id := 1, name := "T", screenId := some 10 },
               { id := 2, name := "S", screenId := some 20 }],
    wells := [{ id := 100, plateId := 1, row := 0, col := 0 },
              { id := 101, plateId := 2, row := 0, col := 0 }],
    samples := [{ id := 200, wellId := 101, runId := none }],
    runs := [],
    nextId := 400 }

/-- The persisted state at which the screen check then fails: the
synthesized run 400 has been saved on plate 2 and the sample now references
it. -/
def stC2after : OmeroState :=
  { plates := [{ id := 1, name := "T", screenId := some 10 },
               { id := 2, name := "S", screenId := some 20 }],
    wells := [{ id := 100, plateId := 1, row := 0, col := 0 },
              { id := 101, plateId := 2, row := 0, col := 0 }],
    samples := [{ id := 200, wellId := 101, runId := some 400 }],
    runs := [{ id := 400, name := "S", startTime := none, plateId := 2 }],
    nextId := 401 }

/-- Claim C2 counterexample: a merge of plates from two different screens
with safety enabled fails the screen check, yet the persisted state at the
failure differs from the initial state — the run synthesized for the
run-less source plate 2 (lines 71-80) was saved before the check ran, so
the source plate's runs and its sample's run reference have changed. -/
theorem C2_counterexample_synthesis_persists_before_failure :
    combine_plates stC2 1 [2] "Plate" "Acquisition name" true =
      .error (.assertionError "Screen safety error: Plates belong to different Screens",
        stC2after) ∧
    stC2after ≠ stC2 :=
  ⟨rfl, by decide⟩

/-- Claim C2 (amended): when the merge fails any assertion — the screen
check, the missing-start-time check, or the missing-target check — the
persisted state at the failure may differ from the initial state only by
run synthesis for run-less source plates: no well has been created, no
sample has moved to another well, and every pre-existing run (in
particular every run of the target and of the source plates) is unchanged.
Well creation and sample migration errors are KeyError/AttributeError,
never AssertionError, so an assertion failure always precedes them. -/
theorem C2_assert_failure_mutates_at_most_run_synthesis
    (s : OmeroState) (tid : Nat) (ids : List Nat) (sk sw : String) (ss : Bool)
    (msg : String) (s1 : OmeroState)
    (h : combine_plates s tid ids sk sw ss = .error (.assertionError msg, s1)) :
    synthOnly s s1 := by
  unfold combine_plates at h
  split at h
  · simp only [Except.error.injEq, Prod.mk.injEq] at h
    exact h.2 ▸ synthOnly_refl s
  · rename_i target hg
    split at h
    · rename_i e hres
      obtain ⟨pe, s2⟩ := e
      simp only [Except.error.injEq, Prod.mk.injEq] at h
      obtain ⟨hkind, -⟩ := resolveWorkList_error_kind _ _ _ _ _ _ hres
      rw [hkind] at h
      exact PyError.noConfusion h.1
    · rename_i s2 wl0 hres
      have hsyn := resolveWorkList_ok_synthOnly _ _ _ _ _ _ hres
      split at h
      · simp only [Except.error.injEq, Prod.mk.injEq] at h
        exact h.2 ▸ hsyn
      · rename_i wl hsort
        split at h
        · simp only [Except.error.injEq, Prod.mk.injEq] at h
          exact h.2 ▸ hsyn
        · rcases mergePhase_error_kind _ _ _ _ _ h with hk | hk <;>
            exact PyError.noConfusion hk

/-- Concrete use of the amended C2 theorem at the counterexample input:
the screen-safety failure leaves wells, sample placement and pre-existing
runs untouched. -/
theorem C2_assert_failure_witness : synthOnly stC2 stC2after :=
  C2_assert_failure_mutates_at_most_run_synthesis stC2 1 [2] "Plate" "Acquisition name" true
    "Screen safety error: Plates belong to different Screens" stC2after rfl

/-!  Screen-check and empty-work-list helper lemmas.  -/

theorem screenCheck_error_of_screenless_target (target : Plate) (wl : List (Plate × Run))
    (h : target.screenId = none) :
    screenCheck target wl =
      .error (.assertionError "Screen safety error: plate not part of a screen") := by
  have hmem : target ∈ (wl.map (fun pr => pr.1) ++ [target]).filter
      (fun p => p.screenId == none) :=
    List.mem_filter.mpr ⟨by simp, by simp [h]⟩
  have hne : ((wl.map (fun pr => pr.1) ++ [target]).filter
      (fun p => p.screenId == none)).map (fun p => p.id) ≠ [] := by
    simp only [ne_eq, List.map_eq_nil_iff]
    intro hcon; rw [hcon] at hmem; exact List.not_mem_nil _ hmem
  have hlen : ((((wl.map (fun pr => pr.1) ++ [target]).filter
      (fun p => p.screenId == none)).map (fun p => p.id)).length != 0) = true := by
    rw [bne_iff_ne]
    exact fun h0 => hne (List.length_eq_zero.mp h0)
  simp only [screenCheck]
  rw [if_pos hlen]

theorem screenCheck_nil_target (p : Plate) :
    screenCheck p [] =
      (if p.screenId = none then
        .error (.assertionError "Screen safety error: plate not part of a screen")
       else .ok ()) := by
  rcases hsp : p.screenId with _ | sid
  · rw [if_pos rfl]
    exact screenCheck_error_of_screenless_target p [] hsp
  · rw [if_neg (by simp [hsp])]
    simp [screenCheck, hsp, dedupIds]

theorem sortWorkList_nil (sw : String) : sortWorkList sw [] = .ok [] := by
  by_cases h1 : (sw == "Plate & run name") = true
  · unfold sortWorkList; rw [if_pos h1]; rfl
  · by_cases h2 : (sw == "Acquisition name") = true
    · unfold sortWorkList; rw [if_neg h1, if_pos h2]; rfl
    · by_cases h3 : (sw == "Acquisition start time") = true
      · unfold sortWorkList; rw [if_neg h1, if_neg h2, if_pos h3]; rfl
      · unfold sortWorkList; rw [if_neg h1, if_neg h2, if_neg h3]

theorem mergePhase_nil (s : OmeroState) (tid : Nat) :
    mergePhase s tid [] = .ok (summaryMessage 0 0 tid 0, s) := rfl

/-- Target plate 1 outside any screen; source plate 2 on a screen, with one
time-stamped run. -/
def stC9 : OmeroState :=
  { plates := [{ id := 1, name := "T", screenId := none },
               { id := 2, name := "S", screenId := some 20 }],
    wells := [], samples := [],
    runs := [{ id := 300, name := "R1", startTime := some 5, plateId := 2 }],
    nextId := 400 }

/-- Claim C9 counterexample: the target has no screen and safety is on, yet
this call does not fail with a screen-safety error — ordering by
"Acquisition start time" dies first with the AttributeError of the sorting
bug (line 95), because the sort runs before the screen check. -/
theorem C9_counterexample_sort_precedes_screen_check :
    combine_plates stC9 1 [2] "Plate" "Acquisition start time" true =
      .error (.attributeError "tuple object has no attribute getStartTime", stC9) :=
  rfl

/-- Claim C9 (amended): whenever work-list resolution and ordering return
normally, a merge whose target plate belongs to no screen fails the enabled
screen check with the screen-safety assertion — the involved set always
contains the target, so this covers in particular the empty work list and
the source_ids = {target} case. -/
theorem C9_screenless_target_fails_screen_check
    (s : OmeroState) (tid : Nat) (ids : List Nat) (sk sw : String) (p : Plate)
    (s1 : OmeroState) (wl0 wl : List (Plate × Run))
    (hp : getPlate s tid = some p) (hscr : p.screenId = none)
    (hres : resolveWorkList s tid ids sk = .ok (s1, wl0))
    (hsort : sortWorkList sw wl0 = .ok wl) :
    combine_plates s tid ids sk sw true =
      .error (.assertionError "Screen safety error: plate not part of a screen", s1) := by
  unfold combine_plates
  rw [hp]
  simp only []
  rw [hres]
  simp only []
  rw [hsort]
  simp only [if_pos]
  rw [screenCheck_error_of_screenless_target p wl hscr]

/-- Concrete use of the amended C9 theorem: merging only the target's own
id into a screen-less target fails with the screen-safety error. -/
theorem C9_screenless_target_witness :
    combine_plates stC9 1 [1] "Plate" "Acquisition name" true =
      .error (.assertionError "Screen safety error: plate not part of a screen", stC9) :=
  C9_screenless_target_fails_screen_check stC9 1 [1] "Plate" "Acquisition name"
    { id := 1, name := "T", screenId := none } stC9 [] [] rfl rfl rfl rfl

theorem ensureRuns_error_of_missing (idsL : List Nat) :
    ∀ s : OmeroState, (∃ pid ∈ idsL, getPlate s pid = none) →
      ∃ s1, ensureRuns idsL s =
        .error (.attributeError "NoneType object has no attribute listPlateAcquisitions", s1) := by
  induction idsL with
  | nil =>
    rintro s ⟨pid, hmem, -⟩
    exact absurd hmem (List.not_mem_nil pid)
  | cons q rest ih =>
    rintro s ⟨pid, hmem, hmiss⟩
    by_cases hq : getPlate s q = none
    · exact ⟨s, by simp [ensureRuns, hq]⟩
    · obtain ⟨p, hp⟩ := Option.ne_none_iff_exists'.mp hq
      have hpid : pid ∈ rest := by
        rcases List.mem_cons.mp hmem with rfl | hm
        · exact absurd hmiss hq
        · exact hm
      simp only [ensureRuns, hp]
      by_cases he : (plateRuns s p.id).isEmpty = true
      · rw [if_pos he]
        exact ih (synthesizeRun s p) ⟨pid, hpid, hmiss⟩
      · rw [if_neg he]
        exact ih s ⟨pid, hpid, hmiss⟩

/-- Claim C10: in Plate mode a source id that resolves to no plate is not
reported as a missing-object error: `conn.getObject` returns `None` and
line 69 calls `listPlateAcquisitions` on it, so the call dies with an
unhandled AttributeError; only the target plate id is guarded by the
line 59 assertion. -/
theorem C10_missing_source_plate_attribute_error
    (s : OmeroState) (tid : Nat) (ids : List Nat) (sw : String) (ss : Bool)
    (p : Plate) (pid : Nat)
    (hp : getPlate s tid = some p)
    (hmem : pid ∈ ids) (hne : pid ≠ tid)
    (hmiss : getPlate s pid = none) :
    ∃ s1, combine_plates s tid ids "Plate" sw ss =
      .error (.attributeError "NoneType object has no attribute listPlateAcquisitions", s1) := by
  have hsrc : pid ∈ (dedupIds ids).filter (fun i => i != tid) :=
    List.mem_filter.mpr ⟨(mem_dedupIds pid ids).mpr hmem, bne_iff_ne.mpr hne⟩
  obtain ⟨s1, herr⟩ := ensureRuns_error_of_missing _ s ⟨pid, hsrc, hmiss⟩
  refine ⟨s1, ?_⟩
  unfold combine_plates resolveWorkList
  rw [hp]
  simp only []
  have hplate : ("Plate" == "Plate") = true := rfl
  rw [if_pos hplate, herr]

/-- Concrete use of the C10 theorem: merging the absent plate id 7 into
target plate 1 of `stC9` raises the AttributeError. -/
theorem C10_missing_source_plate_witness :
    ∃ s1, combine_plates stC9 1 [7] "Plate" "Acquisition name" true =
      .error (.attributeError "NoneType object has no attribute listPlateAcquisitions", s1) :=
  C10_missing_source_plate_attribute_error stC9 1 [7] "Acquisition name" true
    { id := 1, name := "T", screenId := none } 7 rfl (by simp) (by decide) rfl

/-- Claim C8: with source_kind = Plate the target's own id is discarded
from the source set; when every given id equals the target's, the resolved
work list is empty and the call is a no-op — the state is returned
unchanged with a "0 Images from 0 Runs" summary (or, when safety is on and
the target has no screen, the screen check rejects the call while the
state is still exactly the initial one). -/
theorem C8_only_target_is_noop
    (s : OmeroState) (tid : Nat) (ids : List Nat) (sw : String) (ss : Bool) (p : Plate)
    (hp : getPlate s tid = some p) (hids : ∀ i ∈ ids, i = tid) :
    combine_plates s tid ids "Plate" sw ss =
      (if ss = true ∧ p.screenId = none then
        .error (.assertionError "Screen safety error: plate not part of a screen", s)
       else .ok (summaryMessage 0 0 tid 0, s)) := by
  have hsrc : (dedupIds ids).filter (fun i => i != tid) = [] := by
    apply List.filter_eq_nil_iff.mpr
    intro a ha
    have hat : a = tid := hids a ((mem_dedupIds a ids).mp ha)
    simp [hat]
  unfold combine_plates resolveWorkList
  rw [hp]
  simp only []
  have hplate : ("Plate" == "Plate") = true := rfl
  rw [if_pos hplate, hsrc]
  simp only [ensureRuns]
  have hwl : plateWorkList s [] = [] := rfl
  rw [hwl, sortWorkList_nil sw]
  simp only []
  cases ss with
  | false =>
    rw [if_neg (by simp)]
    simp only []
    rw [mergePhase_nil, if_neg (by simp)]
  | true =>
    rw [if_pos rfl, screenCheck_nil_target p]
    rcases hsp : p.screenId with _ | sid
    · rw [if_pos rfl, if_pos ⟨rfl, rfl⟩]
    · rw [if_neg (by simp [hsp]), if_neg (by simp [hsp])]
      simp only []
      rw [mergePhase_nil]

/-- Concrete use of the C8 theorem: `stC1` with source ids [1] (the target
itself, twice over a one-element list) returns the unchanged state and the
zero summary. -/
theorem C8_only_target_witness :
    combine_plates stC1 1 [1, 1] "Plate" "Acquisition name" true =
      (if (true = true ∧ (some 10 : Option Nat) = none) then
        .error (.assertionError "Screen safety error: plate not part of a screen", stC1)
       else .ok (summaryMessage 0 0 1 0, stC1)) :=
  C8_only_target_is_noop stC1 1 [1, 1] "Acquisition name" true
    { id := 1, name := "T", screenId := some 10 } rfl (by decide)

/-!  The folding phase never touches the well or plate tables.  -/

theorem migrateWell_state (rid twid : Nat) (sl : List WellSample) :
    ∀ s cnt s1 cnt1, migrateWell rid twid sl s cnt = .ok (s1, cnt1) →
      s1.wells = s.wells ∧ s1.plates = s.plates ∧ s1.runs = s.runs ∧
        s1.nextId = s.nextId := by
  induction sl with
  | nil =>
    intro s cnt s1 cnt1 h
    simp only [migrateWell, Except.ok.injEq, Prod.mk.injEq] at h
    rw [← h.1]
    exact ⟨rfl, rfl, rfl, rfl⟩
  | cons ws rest ih =>
    intro s cnt s1 cnt1 h
    simp only [migrateWell] at h
    split at h
    · exact Except.noConfusion h
    · split at h
      · exact ih (repointSample s ws.id twid) _ _ _ h
      · exact ih _ _ _ _ h

theorem migratePlateWells_state (rid : Nat) (d : List ((Nat × Nat) × Nat)) (wsL : List Well) :
    ∀ s cnt s1 cnt1, migratePlateWells rid d wsL s cnt = .ok (s1, cnt1) →
      s1.wells = s.wells ∧ s1.plates = s.plates ∧ s1.runs = s.runs ∧
        s1.nextId = s.nextId := by
  induction wsL with
  | nil =>
    intro s cnt s1 cnt1 h
    simp only [migratePlateWells, Except.ok.injEq, Prod.mk.injEq] at h
    rw [← h.1]
    exact ⟨rfl, rfl, rfl, rfl⟩
  | cons w rest ih =>
    intro s cnt s1 cnt1 h
    simp only [migratePlateWells] at h
    split at h
    · exact Except.noConfusion h
    · rename_i twid2 hl
      split at h
      · exact Except.noConfusion h
      · rename_i s2 cnt2 hm
        obtain ⟨hw, hp, hr, hn⟩ := ih _ _ _ _ h
        obtain ⟨hw2, hp2, hr2, hn2⟩ := migrateWell_state _ _ _ _ _ _ _ hm
        exact ⟨hw.trans hw2, hp.trans hp2, hr.trans hr2, hn.trans hn2⟩

theorem foldRuns_state (tid : Nat) (pairs : List (Nat × Nat)) :
    ∀ d s cnt s1 cnt1, foldRuns tid pairs d s cnt = .ok (s1, cnt1) →
      s1.wells = s.wells ∧ s1.plates = s.plates ∧ s1.nextId = s.nextId := by
  induction pairs with
  | nil =>
    intro d s cnt s1 cnt1 h
    simp only [foldRuns, Except.ok.injEq, Prod.mk.injEq] at h
    rw [← h.1]
    exact ⟨rfl, rfl, rfl⟩
  | cons pr rest ih =>
    intro d s cnt s1 cnt1 h
    obtain ⟨pid, rid⟩ := pr
    simp only [foldRuns] at h
    split at h
    · exact Except.noConfusion h
    · rename_i s2 cnt2 hm
      obtain ⟨hw, hp, hn⟩ := ih _ _ _ _ _ h
      obtain ⟨hw2, hp2, -, hn2⟩ := migratePlateWells_state _ _ _ _ _ _ _ hm
      exact ⟨hw.trans hw2, hp.trans hp2, hn.trans hn2⟩

/-!  Association-list lookups into the position index.  -/

theorem lookup_isSome_of_mem (l : List ((Nat × Nat) × Nat)) (k : Nat × Nat) (v : Nat)
    (h : (k, v) ∈ l) : (l.lookup k).isSome = true := by
  induction l with
  | nil => cases h
  | cons e rest ih =>
    obtain ⟨k2, v2⟩ := e
    rcases List.mem_cons.mp h with he | h2
    · obtain ⟨rfl, rfl⟩ := Prod.mk.injEq .. ▸ he
      simp [List.lookup]
    · simp only [List.lookup]
      by_cases hk : (k == k2) = true
      · rw [hk]; rfl
      · rw [Bool.not_eq_true] at hk
        rw [hk]
        exact ih h2

theorem mem_buildWellIndex (ws : List Well) (w : Well) (hw : w ∈ ws) :
    (wellPos w, w.id) ∈ buildWellIndex ws := by
  unfold buildWellIndex
  rw [List.mem_reverse]
  exact List.mem_map.mpr ⟨w, hw, rfl⟩

theorem lookup_buildWellIndex_isSome (ws : List Well) (w : Well) (hw : w ∈ ws) :
    ((buildWellIndex ws).lookup (wellPos w)).isSome = true :=
  lookup_isSome_of_mem _ _ _ (mem_buildWellIndex ws w hw)

/-!  The well-creation phase: invariant and effect.  -/

/-- Invariant of the creation scan: the dict mirrors the target's current
well set, the target's positions are pairwise distinct, and the well table
has distinct ids below the id generator. -/
def CreateInv (tid : Nat) (s : OmeroState) (d : List ((Nat × Nat) × Nat)) : Prop :=
  d = buildWellIndex (plateWells s tid) ∧
  ((plateWells s tid).map wellPos).Nodup ∧
  (s.wells.map (fun w => w.id)).Nodup ∧
  (∀ w ∈ s.wells, w.id < s.nextId)

theorem plateWells_congr {s s1 : OmeroState} (h : s1.wells = s.wells) (pid : Nat) :
    plateWells s1 pid = plateWells s pid := by
  unfold plateWells; rw [h]

theorem buildWellIndex_append_single (l : List Well) (w : Well) :
    buildWellIndex (l ++ [w]) = (wellPos w, w.id) :: buildWellIndex l := by
  unfold buildWellIndex
  rw [List.map_append, List.reverse_append]
  rfl

theorem createWellsForPlate_spec (tid : Nat) (wsL : List Well) :
    ∀ s d cnt s1 d1 cnt1, createWellsForPlate tid wsL (s, d, cnt) = (s1, d1, cnt1) →
      CreateInv tid s d →
      CreateInv tid s1 d1 ∧
      s1.samples = s.samples ∧ s1.plates = s.plates ∧ s1.runs = s.runs ∧
      s.nextId ≤ s1.nextId ∧
      ∃ ext, s1.wells = s.wells ++ ext ∧ ∀ w ∈ ext, w.plateId = tid := by
  induction wsL with
  | nil =>
    intro s d cnt s1 d1 cnt1 h hinv
    simp only [createWellsForPlate, Prod.mk.injEq] at h
    obtain ⟨rfl, rfl, -⟩ := h
    exact ⟨hinv, rfl, rfl, rfl, Nat.le_refl _, [], by simp, by simp⟩
  | cons w rest ih =>
    intro s d cnt s1 d1 cnt1 h hinv
    simp only [createWellsForPlate] at h
    split at h
    · exact ih _ _ _ _ _ _ h hinv
    · rename_i hnone
      rw [Bool.not_eq_true] at hnone
      have hnone2 : d.lookup (wellPos w) = none := by
        rcases hl : d.lookup (wellPos w) with _ | v
        · rfl
        · rw [hl] at hnone; cases hnone
      obtain ⟨hd, hposnd, hidnd, hfr⟩ := hinv
      set nw : Well := { id := s.nextId, plateId := tid, row := w.row, col := w.col } with hnw
      have hpw : plateWells { s with wells := s.wells ++ [nw], nextId := s.nextId + 1 } tid =
          plateWells s tid ++ [nw] := by
        unfold plateWells
        simp only [List.filter_append]
        congr 1
        simp [hnw]
      have hposnotin : wellPos w ∉ (plateWells s tid).map wellPos := by
        intro hmem
        obtain ⟨w2, hw2, hww⟩ := List.mem_map.mp hmem
        have hsome := lookup_buildWellIndex_isSome (plateWells s tid) w2 hw2
        rw [hww, ← hd, hnone2] at hsome
        cases hsome
      have hinv2 : CreateInv tid { s with wells := s.wells ++ [nw], nextId := s.nextId + 1 }
          ((wellPos w, nw.id) :: d) := by
        refine ⟨?_, ?_, ?_, ?_⟩
        · rw [hpw, buildWellIndex_append_single, hd]
          rfl
        · rw [hpw, List.map_append]
          rw [List.nodup_append]
          refine ⟨hposnd, List.nodup_singleton _, ?_⟩
          intro x hx hx2
          simp only [List.map_cons, List.map_nil, List.mem_singleton] at hx2
          rw [hx2] at hx
          exact hposnotin hx
        · simp only [List.map_append]
          rw [List.nodup_append]
          refine ⟨hidnd, List.nodup_singleton _, ?_⟩
          intro x hx hx2
          simp only [List.map_cons, List.map_nil, List.mem_singleton] at hx2
          obtain ⟨w2, hw2, hww⟩ := List.mem_map.mp hx
          have hlt := hfr w2 hw2
          rw [hww, hx2] at hlt
          simp [hnw] at hlt
        · intro w2 hw2
          rcases List.mem_append.mp hw2 with h2 | h2
          · exact Nat.lt_succ_of_lt (hfr w2 h2)
          · rw [List.mem_singleton.mp h2]
            exact Nat.lt_succ_self _
      obtain ⟨hinv3, hsam, hpl, hrn, hnx, ext, hext, hextid⟩ := ih _ _ _ _ _ _ h hinv2
      refine ⟨hinv3, hsam, hpl, hrn, Nat.le_of_lt (Nat.lt_of_lt_of_le (Nat.lt_succ_self _) hnx),
        [nw] ++ ext, ?_, ?_⟩
      · rw [hext]
        simp
      · intro w2 hw2
        rcases List.mem_append.mp hw2 with h2 | h2
        · rw [List.mem_singleton.mp h2]
        · exact hextid w2 h2

theorem createMissingWells_spec (tid : Nat) (pids : List Nat) :
    ∀ s d cnt s1 d1 cnt1, createMissingWells tid pids (s, d, cnt) = (s1, d1, cnt1) →
      CreateInv tid s d →
      CreateInv tid s1 d1 ∧
      s1.samples = s.samples ∧ s1.plates = s.plates ∧ s1.runs = s.runs ∧
      s.nextId ≤ s1.nextId ∧
      ∃ ext, s1.wells = s.wells ++ ext ∧ ∀ w ∈ ext, w.plateId = tid := by
  induction pids with
  | nil =>
    intro s d cnt s1 d1 cnt1 h hinv
    simp only [createMissingWells, Prod.mk.injEq] at h
    obtain ⟨rfl, rfl, -⟩ := h
    exact ⟨hinv, rfl, rfl, rfl, Nat.le_refl _, [], by simp, by simp⟩
  | cons pid rest ih =>
    intro s d cnt s1 d1 cnt1 h hinv
    simp only [createMissingWells] at h
    rcases hcw : createWellsForPlate tid (plateWells s pid) (s, d, cnt) with ⟨s2, d2, cnt2⟩
    rw [hcw] at h
    obtain ⟨hinv2, hsam2, hpl2, hrn2, hnx2, ext2, hext2, hextid2⟩ :=
      createWellsForPlate_spec tid _ _ _ _ _ _ _ hcw hinv
    obtain ⟨hinv3, hsam3, hpl3, hrn3, hnx3, ext3, hext3, hextid3⟩ := ih _ _ _ _ _ _ h hinv2
    refine ⟨hinv3, hsam3.trans hsam2, hpl3.trans hpl2, hrn3.trans hrn2,
      hnx2.trans hnx3, ext2 ++ ext3, ?_, ?_⟩
    · rw [hext3, hext2, List.append_assoc]
    · intro w2 hw2
      rcases List.mem_append.mp hw2 with h2 | h2
      · exact hextid2 w2 h2
      · exact hextid3 w2 h2

/-- Claim C5: for every merge that returns normally, if the target's well
positions were pairwise distinct before the merge (and the well table is
well-formed: distinct well ids below the id generator), then they are
pairwise distinct afterwards — a well is created only for a position absent
from the index, and the folding phase creates no wells at all. -/
theorem C5_well_position_uniqueness
    (s : OmeroState) (tid : Nat) (ids : List Nat) (sk sw : String) (ss : Bool)
    (msg : String) (s1 : OmeroState)
    (hok : combine_plates s tid ids sk sw ss = .ok (msg, s1))
    (hnd : ((plateWells s tid).map wellPos).Nodup)
    (hwnd : (s.wells.map (fun w => w.id)).Nodup)
    (hfresh : ∀ w ∈ s.wells, w.id < s.nextId) :
    ((plateWells s1 tid).map wellPos).Nodup := by
  unfold combine_plates at hok
  split at hok
  · exact Except.noConfusion hok
  · rename_i target hg
    split at hok
    · exact Except.noConfusion hok
    · rename_i s2 wl0 hres
      obtain ⟨-, hw2, -, -, hnx2⟩ := resolveWorkList_ok_synthOnly _ _ _ _ _ _ hres
      split at hok
      · exact Except.noConfusion hok
      · rename_i wl hsort
        split at hok
        · exact Except.noConfusion hok
        · unfold mergePhase at hok
          rcases hcm : createMissingWells tid (wl.map (fun pr => pr.1.id))
              (s2, buildWellIndex (plateWells s2 tid), 0) with ⟨s3, d, k⟩
          rw [hcm] at hok
          simp only [] at hok
          split at hok
          · exact Except.noConfusion hok
          · rename_i s4 cnt hf
            simp only [Except.ok.injEq, Prod.mk.injEq] at hok
            have hinv0 : CreateInv tid s2 (buildWellIndex (plateWells s2 tid)) := by
              refine ⟨rfl, ?_, ?_, ?_⟩
              · rw [plateWells_congr hw2]; exact hnd
              · rw [hw2]; exact hwnd
              · intro w hw
                rw [hw2] at hw
                exact Nat.lt_of_lt_of_le (hfresh w hw) hnx2
            obtain ⟨⟨-, hpos3, -, -⟩, -, -, -, -, -⟩ :=
              createMissingWells_spec tid _ _ _ _ _ _ _ hcm hinv0
            obtain ⟨hw4, -, -⟩ := foldRuns_state _ _ _ _ _ _ _ hf
            rw [← hok.2]
            rw [plateWells_congr hw4]
            exact hpos3

/-- The state `stC1` produces when run 300 of plate 2 is merged into
plate 1 ordered by acquisition name: the sample moved to target well 100
and the run was reassigned. -/
def stC5after : OmeroState :=
  { plates := [{ id := 1, name := "T", screenId := some 10 },
               { id := 2, name := "S", screenId := some 10 }],
    wells := [{ id := 100, plateId := 1, row := 0, col := 0 },
              { id := 101, plateId := 2, row := 0, col := 0 }],
    samples := [{ id := 200, wellId := 100, runId := some 300 }],
    runs := [{ id := 300, name := "R1", startTime := some 5, plateId := 1 }],
    nextId := 400 }

/-- Concrete use of the C5 theorem on a completed merge. -/
theorem C5_well_position_uniqueness_witness :
    ((plateWells stC5after 1).map wellPos).Nodup :=
  C5_well_position_uniqueness stC1 1 [2] "Plate" "Acquisition name" true
    "1 Images from 1 Runs merged into Plate:1." stC5after rfl
    (by decide) (by decide) (by decide)

/-!  Auto-run synthesis: tracking the synthesized run of one plate.  -/

/-- `o` is an optional id strictly below the bound `n`. -/
def optIdLt (o : Option Nat) (n : Nat) : Prop :=
  match o with
  | none => True
  | some q => q < n

instance (o : Option Nat) (n : Nat) : Decidable (optIdLt o n) := by
  cases o with
  | none => exact isTrue trivial
  | some q => exact (inferInstance : Decidable (q < n))

theorem optIdLt_mono {o : Option Nat} {n m : Nat} (h : optIdLt o n) (hnm : n ≤ m) :
    optIdLt o m := by
  cases o with
  | none => trivial
  | some q => exact Nat.lt_of_lt_of_le h hnm

theorem optIdLt_some {o : Option Nat} {n q : Nat} (h : optIdLt o n) (hq : o = some q) :
    q < n := by
  cases o with
  | none => cases hq
  | some q2 => rw [Option.some_inj.mp hq] at h; exact h

theorem getPlate_id (s : OmeroState) (pid : Nat) (p : Plate)
    (h : getPlate s pid = some p) : p.id = pid := by
  have hpred := List.find?_some h
  simpa using hpred

theorem getPlate_congr {s s1 : OmeroState} (h : s1.plates = s.plates) (pid : Nat) :
    getPlate s1 pid = getPlate s pid := by
  unfold getPlate; rw [h]

theorem plateWells_id_inj (s : OmeroState) (hnd : (s.wells.map (fun w => w.id)).Nodup)
    (p1 p2 : Nat) (hne : p1 ≠ p2) (x : Nat)
    (h1 : x ∈ (plateWells s p1).map (fun w => w.id)) :
    x ∉ (plateWells s p2).map (fun w => w.id) := by
  intro h2
  obtain ⟨w1, hw1, hx1⟩ := List.mem_map.mp h1
  obtain ⟨w2, hw2, hx2⟩ := List.mem_map.mp h2
  have hmem1 : w1 ∈ s.wells := List.mem_of_mem_filter hw1
  have hmem2 : w2 ∈ s.wells := List.mem_of_mem_filter hw2
  have hweq : w1 = w2 :=
    List.inj_on_of_nodup_map hnd hmem1 hmem2 (hx1.trans hx2.symm)
  have hp1 : w1.plateId = p1 := by
    have := List.of_mem_filter hw1
    simpa using this
  have hp2 : w2.plateId = p2 := by
    have := List.of_mem_filter hw2
    simpa using this
  rw [hweq, hp2] at hp1
  exact hne hp1.symm

theorem synthesizeRun_fresh (s : OmeroState) (p : Plate)
    (hfr : ∀ ws ∈ s.samples, optIdLt ws.runId s.nextId) :
    ∀ ws ∈ (synthesizeRun s p).samples, optIdLt ws.runId (synthesizeRun s p).nextId := by
  intro ws2 hws2
  obtain ⟨ws, hws, hmap⟩ := List.mem_map.mp hws2
  rw [← hmap]
  by_cases hc : (((plateWells s p.id).map (fun w => w.id)).contains ws.wellId) = true
  · rw [if_pos hc]
    exact Nat.lt_succ_self _
  · rw [Bool.not_eq_true] at hc
    have hcm : ws.wellId ∉ (plateWells s p.id).map (fun w => w.id) := by
      intro hm
      have h2 : ((plateWells s p.id).map (fun w => w.id)).contains ws.wellId = true :=
        List.elem_iff.mpr hm
      rw [h2] at hc
      exact Bool.noConfusion hc
    rw [if_neg (fun hcon => hcm (List.elem_iff.mp hcon))]
    exact optIdLt_mono (hfr ws hws) (Nat.le_succ _)

/-- In `s` the run `r` is exactly the run set of plate `pid` and a sample
references `r` exactly when it sits in a well of plate `pid`. -/
def TracksRun (pid : Nat) (r : Run) (s : OmeroState) : Prop :=
  plateRuns s pid = [r] ∧
  (∀ ws ∈ s.samples, (ws.runId = some r.id ↔
    ws.wellId ∈ (plateWells s pid).map (fun w => w.id)))

theorem plateRuns_synthesizeRun_other (s : OmeroState) (p : Plate) (pid : Nat)
    (hne : p.id ≠ pid) :
    plateRuns (synthesizeRun s p) pid = plateRuns s pid := by
  have h1 : plateRuns (synthesizeRun s p) pid =
      (s.runs ++ [({ id := s.nextId, name := p.name, startTime := none, plateId := p.id } :
        Run)]).filter (fun r => r.plateId == pid) := rfl
  rw [h1, List.filter_append]
  have hnil : ([({ id := s.nextId, name := p.name, startTime := none, plateId := p.id } :
      Run)]).filter (fun r => r.plateId == pid) = [] := by
    simp [hne]
  rw [hnil, List.append_nil]
  rfl

theorem plateRuns_synthesizeRun_self (s : OmeroState) (p : Plate)
    (hnorun : plateRuns s p.id = []) :
    plateRuns (synthesizeRun s p) p.id =
      [{ id := s.nextId, name := p.name, startTime := none, plateId := p.id }] := by
  have h1 : plateRuns (synthesizeRun s p) p.id =
      (s.runs ++ [({ id := s.nextId, name := p.name, startTime := none, plateId := p.id } :
        Run)]).filter (fun r => r.plateId == p.id) := rfl
  rw [h1, List.filter_append]
  have h2 : s.runs.filter (fun r => r.plateId == p.id) = [] := hnorun
  rw [h2]
  simp

theorem synthesizeRun_tracks (s : OmeroState) (p : Plate)
    (hnorun : plateRuns s p.id = [])
    (hfr : ∀ ws ∈ s.samples, optIdLt ws.runId s.nextId) :
    TracksRun p.id { id := s.nextId, name := p.name, startTime := none, plateId := p.id }
      (synthesizeRun s p) := by
  constructor
  · exact plateRuns_synthesizeRun_self s p hnorun
  · intro ws2 hws2
    obtain ⟨ws, hws, hmap⟩ := List.mem_map.mp hws2
    have hpw : plateWells (synthesizeRun s p) p.id = plateWells s p.id := rfl
    rw [← hmap, hpw]
    by_cases hc : (((plateWells s p.id).map (fun w => w.id)).contains ws.wellId) = true
    · rw [if_pos hc]
      constructor
      · intro _
        exact List.elem_iff.mp hc
      · intro _
        rfl
    · rw [Bool.not_eq_true] at hc
      have hcm : ws.wellId ∉ (plateWells s p.id).map (fun w => w.id) := by
        intro hm
        have h2 : ((plateWells s p.id).map (fun w => w.id)).contains ws.wellId = true :=
          List.elem_iff.mpr hm
        rw [h2] at hc
        exact Bool.noConfusion hc
      rw [if_neg (fun hcon => hcm (List.elem_iff.mp hcon))]
      constructor
      · intro hr
        exact absurd (optIdLt_some (hfr ws hws) hr) (Nat.lt_irrefl _)
      · intro hmem
        exact absurd hmem hcm

theorem ensureRuns_preserves_tracked (rest : List Nat) :
    ∀ s s1 pid r, ensureRuns rest s = .ok s1 →
      pid ∉ rest →
      (s.wells.map (fun w => w.id)).Nodup →
      (∀ ws ∈ s.samples, optIdLt ws.runId s.nextId) →
      r.id < s.nextId →
      TracksRun pid r s →
      TracksRun pid r s1 ∧ s1.wells = s.wells ∧ s1.plates = s.plates := by
  induction rest with
  | nil =>
    intro s s1 pid r h hnot hwnd hfr hrid htr
    simp only [ensureRuns, Except.ok.injEq] at h
    rw [← h]
    exact ⟨htr, rfl, rfl⟩
  | cons q qrest ih =>
    intro s s1 pid r h hnot hwnd hfr hrid htr
    have hqne : q ≠ pid := fun hq => hnot (hq ▸ List.mem_cons_self q qrest)
    have hnot2 : pid ∉ qrest := fun hm => hnot (List.mem_cons_of_mem q hm)
    simp only [ensureRuns] at h
    split at h
    · exact Except.noConfusion h
    · rename_i pq hq
      have hpqid : pq.id = q := getPlate_id s q pq hq
      have hpqne : pq.id ≠ pid := by rw [hpqid]; exact hqne
      split at h
      · have htr2 : TracksRun pid r (synthesizeRun s pq) := by
          obtain ⟨hruns, hiff⟩ := htr
          constructor
          · rw [plateRuns_synthesizeRun_other s pq pid hpqne]
            exact hruns
          · intro ws2 hws2
            obtain ⟨ws, hws, hmap⟩ := List.mem_map.mp hws2
            have hpweq : plateWells (synthesizeRun s pq) pid = plateWells s pid := rfl
            rw [← hmap, hpweq]
            by_cases hc : (((plateWells s pq.id).map (fun w => w.id)).contains ws.wellId) = true
            · rw [if_pos hc]
              constructor
              · intro hr2
                have heq : s.nextId = r.id := Option.some_inj.mp hr2
                rw [← heq] at hrid
                exact absurd hrid (Nat.lt_irrefl _)
              · intro hmem
                have hin_pq : ws.wellId ∈ (plateWells s pq.id).map (fun w => w.id) :=
                  List.elem_iff.mp hc
                exact absurd hmem
                  (plateWells_id_inj s hwnd pq.id pid hpqne ws.wellId hin_pq)
            · rw [Bool.not_eq_true] at hc
              have hcm : ws.wellId ∉ (plateWells s pq.id).map (fun w => w.id) := by
                intro hm
                have h2 : ((plateWells s pq.id).map (fun w => w.id)).contains ws.wellId = true :=
                  List.elem_iff.mpr hm
                rw [h2] at hc
                exact Bool.noConfusion hc
              rw [if_neg (fun hcon => hcm (List.elem_iff.mp hcon))]
              exact hiff ws hws
        exact ih (synthesizeRun s pq) s1 pid r h hnot2 hwnd
          (synthesizeRun_fresh s pq hfr) (Nat.lt_succ_of_lt hrid) htr2
      · exact ih s s1 pid r h hnot2 hwnd hfr hrid htr

theorem ensureRuns_synthesizes_for (srcIds : List Nat) :
    ∀ s s1 pid p, ensureRuns srcIds s = .ok s1 →
      srcIds.Nodup → pid ∈ srcIds →
      getPlate s pid = some p → plateRuns s pid = [] →
      (s.wells.map (fun w => w.id)).Nodup →
      (∀ ws ∈ s.samples, optIdLt ws.runId s.nextId) →
      ∃ r, TracksRun pid r s1 ∧ r.name = p.name ∧ r.plateId = pid ∧
        s1.wells = s.wells ∧ s1.plates = s.plates := by
  induction srcIds with
  | nil =>
    intro s s1 pid p h hnd hmem hp hnorun hwnd hfr
    exact absurd hmem (List.not_mem_nil pid)
  | cons q qrest ih =>
    intro s s1 pid p h hnd hmem hp hnorun hwnd hfr
    simp only [ensureRuns] at h
    split at h
    · exact Except.noConfusion h
    · rename_i pq hq
      have hpqid : pq.id = q := getPlate_id s q pq hq
      by_cases hqp : q = pid
      · subst hqp
        have hpeq : pq = p := by rw [hq] at hp; exact Option.some_inj.mp hp
        split at h
        · rename_i hemp
          have htr0 : TracksRun pq.id
              { id := s.nextId, name := pq.name, startTime := none, plateId := pq.id }
              (synthesizeRun s pq) :=
            synthesizeRun_tracks s pq (by rw [hpqid]; exact hnorun) hfr
          rw [hpqid] at htr0
          have hnotin : pq.id ∉ qrest := by
            rw [hpqid]; exact (List.nodup_cons.mp hnd).1
          rw [hpqid] at hnotin
          obtain ⟨htr1, hw1, hpl1⟩ := ensureRuns_preserves_tracked qrest
            (synthesizeRun s pq) s1 q
            { id := s.nextId, name := pq.name, startTime := none, plateId := q }
            h hnotin hwnd (synthesizeRun_fresh s pq hfr) (Nat.lt_succ_self _) htr0
          refine ⟨{ id := s.nextId, name := pq.name, startTime := none, plateId := q },
            htr1, ?_, rfl, hw1, hpl1⟩
          exact congrArg Plate.name hpeq
        · rename_i hemp
          exfalso
          rw [hpqid, hnorun] at hemp
          exact hemp rfl
      · have hmem2 : pid ∈ qrest := by
          rcases List.mem_cons.mp hmem with heq | hm
          · exact absurd heq.symm hqp
          · exact hm
        have hnd2 := (List.nodup_cons.mp hnd).2
        have hpqne : pq.id ≠ pid := by rw [hpqid]; exact hqp
        split at h
        · have hp2 : getPlate (synthesizeRun s pq) pid = some p := hp
          have hnorun2 : plateRuns (synthesizeRun s pq) pid = [] := by
            rw [plateRuns_synthesizeRun_other s pq pid hpqne]
            exact hnorun
          exact ih (synthesizeRun s pq) s1 pid p h hnd2 hmem2 hp2 hnorun2 hwnd
            (synthesizeRun_fresh s pq hfr)
        · exact ih s s1 pid p h hnd2 hmem2 hp hnorun hwnd hfr

/-- One source plate's contribution to the Plate-mode work list. -/
def workChunk (s1 : OmeroState) (q : Nat) : List (Plate × Run) :=
  match getPlate s1 q with
  | some p2 => (plateRuns s1 p2.id).map (fun r2 => (p2, r2))
  | none => []

theorem plateWorkList_cons (s1 : OmeroState) (q : Nat) (rest : List Nat) :
    plateWorkList s1 (q :: rest) = workChunk s1 q ++ plateWorkList s1 rest := rfl

theorem workChunk_filter_ne (s1 : OmeroState) (q pid : Nat) (hne : q ≠ pid) :
    (workChunk s1 q).filter (fun pr => pr.1.id == pid) = [] := by
  unfold workChunk
  rcases hq : getPlate s1 q with _ | p2
  · rfl
  · simp only []
    apply List.filter_eq_nil_iff.mpr
    intro pr hpr
    obtain ⟨r2, hr2, rfl⟩ := List.mem_map.mp hpr
    intro hcon
    exact hne ((getPlate_id s1 q p2 hq) ▸ eq_of_beq hcon)

theorem plateWorkList_filter_not_mem (s1 : OmeroState) (rest : List Nat) (pid : Nat)
    (h : pid ∉ rest) :
    (plateWorkList s1 rest).filter (fun pr => pr.1.id == pid) = [] := by
  induction rest with
  | nil => rfl
  | cons q qrest ih =>
    have hqne : q ≠ pid := fun hq => h (hq ▸ List.mem_cons_self q qrest)
    have h2 : pid ∉ qrest := fun hm => h (List.mem_cons_of_mem q hm)
    rw [plateWorkList_cons, List.filter_append, ih h2, List.append_nil]
    exact workChunk_filter_ne s1 q pid hqne

theorem workChunk_filter_self (s1 : OmeroState) (pid : Nat) (p : Plate) (r : Run)
    (hp : getPlate s1 pid = some p) (hruns : plateRuns s1 pid = [r]) :
    (workChunk s1 pid).filter (fun pr => pr.1.id == pid) = [(p, r)] := by
  unfold workChunk
  rw [hp]
  simp only []
  have hpid : p.id = pid := getPlate_id s1 pid p hp
  rw [hpid, hruns]
  simp [hpid]

theorem plateWorkList_filter_single (s1 : OmeroState) (srcIds : List Nat) (pid : Nat)
    (p : Plate) (r : Run)
    (hnd : srcIds.Nodup) (hmem : pid ∈ srcIds)
    (hp : getPlate s1 pid = some p) (hruns : plateRuns s1 pid = [r]) :
    (plateWorkList s1 srcIds).filter (fun pr => pr.1.id == pid) = [(p, r)] := by
  induction srcIds with
  | nil => exact absurd hmem (List.not_mem_nil pid)
  | cons q qrest ih =>
    rw [plateWorkList_cons, List.filter_append]
    by_cases hqp : q = pid
    · have hnotin : pid ∉ qrest := hqp ▸ (List.nodup_cons.mp hnd).1
      rw [plateWorkList_filter_not_mem s1 qrest pid hnotin, List.append_nil, hqp]
      exact workChunk_filter_self s1 pid p r hp hruns
    · have hmem2 : pid ∈ qrest := by
        rcases List.mem_cons.mp hmem with heq | hm
        · exact absurd heq.symm hqp
        · exact hm
      have hnd2 := (List.nodup_cons.mp hnd).2
      rw [workChunk_filter_ne s1 q pid hqp, List.nil_append]
      exact ih hnd2 hmem2

/-- Claim C7: with source_kind = Plate, a source plate with zero runs gets
exactly one synthesized run: after resolution it is the plate's only run,
its name is the plate's name, it belongs to the plate, a sample references
it exactly when the sample sits in one of that plate's wells (i.e. the run
contains all of the plate's well samples and nothing else), and the plate
contributes exactly the pair (plate, synthesized run) to the work list. -/
theorem C7_auto_run_synthesis
    (s : OmeroState) (tid : Nat) (ids : List Nat) (pid : Nat) (p : Plate)
    (s1 : OmeroState) (wl : List (Plate × Run))
    (hres : resolveWorkList s tid ids "Plate" = .ok (s1, wl))
    (hmem : pid ∈ ids) (hne : pid ≠ tid)
    (hp : getPlate s pid = some p)
    (hnorun : plateRuns s pid = [])
    (hwnd : (s.wells.map (fun w => w.id)).Nodup)
    (hfr : ∀ ws ∈ s.samples, optIdLt ws.runId s.nextId) :
    ∃ r, plateRuns s1 pid = [r] ∧ r.name = p.name ∧ r.plateId = pid ∧
      (∀ ws ∈ s1.samples, (ws.runId = some r.id ↔
        ws.wellId ∈ (plateWells s1 pid).map (fun w => w.id))) ∧
      wl.filter (fun pr => pr.1.id == pid) = [(p, r)] := by
  unfold resolveWorkList at hres
  rw [if_pos (show ("Plate" == "Plate") = true from rfl)] at hres
  split at hres
  · exact Except.noConfusion hres
  · rename_i s2 hens
    simp only [Except.ok.injEq, Prod.mk.injEq] at hres
    obtain ⟨hs12, hwl⟩ := hres
    rw [hs12] at hens hwl
    have hsrcmem : pid ∈ (dedupIds ids).filter (fun i => i != tid) :=
      List.mem_filter.mpr ⟨(mem_dedupIds pid ids).mpr hmem, bne_iff_ne.mpr hne⟩
    have hsrcnd : ((dedupIds ids).filter (fun i => i != tid)).Nodup :=
      (dedupIds_nodup ids).filter _
    obtain ⟨r, ⟨hruns, hiff⟩, hname, hplateId, hwells, hplates⟩ :=
      ensureRuns_synthesizes_for _ s s1 pid p hens hsrcnd hsrcmem hp hnorun hwnd hfr
    have hp2 : getPlate s1 pid = some p := by
      rw [getPlate_congr hplates]; exact hp
    refine ⟨r, hruns, hname, hplateId, hiff, ?_⟩
    rw [← hwl]
    exact plateWorkList_filter_single s1 _ pid p r hsrcnd hsrcmem hp2 hruns

/-- Concrete use of the C7 theorem: resolving the run-less source
plate 2 of `stC2` synthesizes a run carrying the name of plate 2, covering its one sample, and
the work list contribution of plate 2 is exactly that run. -/
theorem C7_auto_run_synthesis_witness :
    ∃ r, plateRuns stC2after 2 = [r] ∧
      r.name = ({ id := 2, name := "S", screenId := some 20 } : Plate).name ∧
      r.plateId = 2 ∧
      (∀ ws ∈ stC2after.samples, (ws.runId = some r.id ↔
        ws.wellId ∈ (plateWells stC2after 2).map (fun w => w.id))) ∧
      ([(({ id := 2, name := "S", screenId := some 20 } : Plate),
          ({ id := 400, name := "S", startTime := none, plateId := 2 } : Run))] :
        List (Plate × Run)).filter (fun pr => pr.1.id == 2) =
        [({ id := 2, name := "S", screenId := some 20 }, r)] :=
  C7_auto_run_synthesis stC2 1 [2] 2 { id := 2, name := "S", screenId := some 20 }
    stC2after
    [({ id := 2, name := "S", screenId := some 20 },
      { id := 400, name := "S", startTime := none, plateId := 2 })]
    rfl (by decide) (by decide) rfl rfl (by decide) (by decide)

/-!  Sample conservation: a closed form for the per-well migration.  -/

/-- The composite effect of re-pointing the listed samples to one target
well. -/
def updSet (samples : List WellSample) (moved : List Nat) (twid : Nat) : List WellSample :=
  samples.map (fun ws => if moved.contains ws.id then { ws with wellId := twid } else ws)

theorem updSet_nil (samples : List WellSample) (twid : Nat) :
    updSet samples [] twid = samples := by
  unfold updSet
  have hpt : ∀ ws ∈ samples,
      (if ([] : List Nat).contains ws.id then { ws with wellId := twid } else ws) = ws := by
    intro ws _
    rfl
  rw [List.map_congr_left hpt]
  exact List.map_id' samples

theorem updSet_cons (samples : List WellSample) (a : Nat) (moved : List Nat) (twid : Nat) :
    updSet (updSet samples [a] twid) moved twid = updSet samples (a :: moved) twid := by
  unfold updSet
  rw [List.map_map]
  apply List.map_congr_left
  intro ws _
  simp only [Function.comp_apply]
  by_cases h1 : ws.id ∈ ([a] : List Nat)
  · rw [if_pos (List.elem_iff.mpr h1)]
    have hmem : ws.id ∈ a :: moved := by
      rw [List.mem_singleton.mp h1]
      exact List.mem_cons_self a moved
    rw [if_pos (List.elem_iff.mpr hmem)]
    split <;> rfl
  · rw [if_neg (fun hc => h1 (List.elem_iff.mp hc))]
    by_cases h2 : ws.id ∈ moved
    · rw [if_pos (List.elem_iff.mpr h2),
        if_pos (List.elem_iff.mpr (List.mem_cons_of_mem a h2))]
    · rw [if_neg (fun hc => h2 (List.elem_iff.mp hc)),
        if_neg (fun hc => ?_)]
      rcases List.mem_cons.mp (List.elem_iff.mp hc) with h3 | h3
      · exact h1 (List.mem_singleton.mpr h3)
      · exact h2 h3

theorem repointSample_updSet (s : OmeroState) (sid twid : Nat) :
    (repointSample s sid twid).samples = updSet s.samples [sid] twid := by
  show s.samples.map _ = s.samples.map _
  apply List.map_congr_left
  intro ws _
  by_cases h : (ws.id == sid) = true
  · rw [if_pos h,
      if_pos (List.elem_iff.mpr (List.mem_singleton.mpr (eq_of_beq h)))]
  · rw [if_neg h,
      if_neg (fun hc => h (beq_iff_eq.mpr (List.mem_singleton.mp (List.elem_iff.mp hc))))]

theorem migrateWell_spec (rid twid : Nat) (sl : List WellSample) :
    ∀ s cnt sB cntB, migrateWell rid twid sl s cnt = .ok (sB, cntB) →
      cntB = cnt + (sl.filter (fun ws => ws.runId == some rid)).length ∧
      sB.samples = updSet s.samples
        ((sl.filter (fun ws => ws.runId == some rid)).map (fun ws => ws.id)) twid := by
  induction sl with
  | nil =>
    intro s cnt sB cntB h
    simp only [migrateWell, Except.ok.injEq, Prod.mk.injEq] at h
    obtain ⟨hs, hc⟩ := h
    constructor
    · simp only [List.filter_nil, List.length_nil]
      omega
    · rw [← hs]
      exact (updSet_nil s.samples twid).symm
  | cons ws0 rest ih =>
    intro s cnt sB cntB h
    simp only [migrateWell] at h
    split at h
    · exact Except.noConfusion h
    · rename_i r hr
      split at h
      · rename_i he
        obtain ⟨hcnt, hsam⟩ := ih (repointSample s ws0.id twid) (cnt + 1) sB cntB h
        have hpred : (ws0.runId == some rid) = true := by
          rw [hr]; exact he
        constructor
        · rw [List.filter_cons, if_pos hpred, List.length_cons]
          omega
        · rw [hsam, repointSample_updSet, List.filter_cons, if_pos hpred, List.map_cons]
          exact updSet_cons s.samples ws0.id _ twid
      · rename_i he
        have hpred : ¬((ws0.runId == some rid) = true) := by
          rw [hr]; exact he
        obtain ⟨hcnt, hsam⟩ := ih s cnt sB cntB h
        rw [List.filter_cons, if_neg hpred]
        exact ⟨hcnt, hsam⟩

theorem contains_eq_false_of_not_mem (l : List Nat) (a : Nat) (h : a ∉ l) :
    l.contains a = false := by
  cases hc : l.contains a with
  | false => rfl
  | true => exact absurd (List.elem_iff.mp hc) h

theorem length_filter_or_disjoint (l : List WellSample) (p q : WellSample → Bool)
    (hdisj : ∀ a ∈ l, ¬(p a = true ∧ q a = true)) :
    (l.filter (fun a => p a || q a)).length = (l.filter p).length + (l.filter q).length := by
  induction l with
  | nil => rfl
  | cons a rest ih =>
    have hd2 : ∀ b ∈ rest, ¬(p b = true ∧ q b = true) :=
      fun b hb => hdisj b (List.mem_cons_of_mem a hb)
    have ihr := ih hd2
    rw [List.filter_cons, List.filter_cons, List.filter_cons]
    by_cases hp : p a = true
    · have hq : q a = false := by
        cases hq2 : q a with
        | false => rfl
        | true => exact absurd ⟨hp, hq2⟩ (hdisj a (List.mem_cons_self a rest))
      rw [if_pos (by rw [hp]; rfl), if_pos hp,
        if_neg (by rw [hq]; exact fun hc => Bool.noConfusion hc)]
      simp only [List.length_cons]
      omega
    · rw [Bool.not_eq_true] at hp
      by_cases hq : q a = true
      · rw [if_pos (by rw [hp, hq]; rfl),
          if_neg (by rw [hp]; exact fun hc => Bool.noConfusion hc), if_pos hq]
        simp only [List.length_cons]
        omega
      · rw [Bool.not_eq_true] at hq
        rw [if_neg (by rw [hp, hq]; exact fun hc => Bool.noConfusion hc),
          if_neg (by rw [hp]; exact fun hc => Bool.noConfusion hc),
          if_neg (by rw [hq]; exact fun hc => Bool.noConfusion hc)]
        exact ihr

theorem updSet_map_pair (X : List WellSample) (m : List Nat) (t : Nat) :
    (updSet X m t).map (fun ws => (ws.id, ws.runId)) = X.map (fun ws => (ws.id, ws.runId)) := by
  unfold updSet
  rw [List.map_map]
  apply List.map_congr_left
  intro ws _
  simp only [Function.comp_apply]
  split <;> rfl

theorem map_id_of_map_pair {l1 l2 : List WellSample}
    (h : l1.map (fun ws => (ws.id, ws.runId)) = l2.map (fun ws => (ws.id, ws.runId))) :
    l1.map (fun ws => ws.id) = l2.map (fun ws => ws.id) := by
  have h2 := congrArg (List.map Prod.fst) h
  rw [List.map_map, List.map_map] at h2
  exact h2

theorem map_runId_of_map_pair {l1 l2 : List WellSample}
    (h : l1.map (fun ws => (ws.id, ws.runId)) = l2.map (fun ws => (ws.id, ws.runId))) :
    l1.map (fun ws => ws.runId) = l2.map (fun ws => ws.runId) := by
  have h2 := congrArg (List.map Prod.snd) h
  rw [List.map_map, List.map_map] at h2
  exact h2

theorem length_filter_updSet (X : List WellSample) (m : List Nat) (t : Nat)
    (p : WellSample → Bool)
    (hp : ∀ ws ∈ X, m.contains ws.id = true → p { ws with wellId := t } = p ws) :
    ((updSet X m t).filter p).length = (X.filter p).length := by
  unfold updSet
  rw [← List.countP_eq_length_filter, ← List.countP_eq_length_filter, List.countP_map]
  apply List.countP_congr
  intro ws hws
  simp only [Function.comp_apply]
  by_cases hc : m.contains ws.id = true
  · rw [if_pos hc, hp ws hws hc]
  · rw [if_neg hc]

/-- Number of samples of run `rid` sitting in one of the given wells. -/
def runCountIn (samples : List WellSample) (wids : List Nat) (rid : Nat) : Nat :=
  (samples.filter (fun ws => ws.runId == some rid && wids.contains ws.wellId)).length

theorem migratePlateWells_spec (rid : Nat) (d : List ((Nat × Nat) × Nat)) (L : List Well) :
    ∀ s cnt sA cntA, migratePlateWells rid d L s cnt = .ok (sA, cntA) →
      (s.samples.map (fun ws => ws.id)).Nodup →
      (L.map (fun w => w.id)).Nodup →
      (∀ w ∈ L, ∀ twid, d.lookup (wellPos w) = some twid →
        twid ∉ L.map (fun w2 => w2.id) ∨ twid = w.id) →
      cntA = cnt + runCountIn s.samples (L.map (fun w => w.id)) rid ∧
      sA.samples.map (fun ws => (ws.id, ws.runId)) =
        s.samples.map (fun ws => (ws.id, ws.runId)) ∧
      (∀ ws ∈ sA.samples, ws.runId ≠ some rid → ws ∈ s.samples) := by
  induction L with
  | nil =>
    intro s cnt sA cntA h hsnd hLnd hHc
    simp only [migratePlateWells, Except.ok.injEq, Prod.mk.injEq] at h
    obtain ⟨hs, hc⟩ := h
    rw [← hs]
    refine ⟨?_, rfl, fun ws hws _ => hws⟩
    unfold runCountIn
    have hnil : s.samples.filter
        (fun ws => ws.runId == some rid && (([] : List Well).map (fun w => w.id)).contains ws.wellId) = [] := by
      apply List.filter_eq_nil_iff.mpr
      intro a _
      intro hcon
      rw [Bool.and_eq_true] at hcon
      exact Bool.noConfusion hcon.2
    rw [hnil]
    simp only [List.length_nil]
    omega
  | cons w rest ih =>
    intro s cnt sA cntA h hsnd hLnd hHc
    simp only [migratePlateWells] at h
    split at h
    · exact Except.noConfusion h
    · rename_i twid hlk
      split at h
      · exact Except.noConfusion h
      · rename_i s2 cnt2 hm
        obtain ⟨hcnt2, hsam2⟩ := migrateWell_spec rid twid (wellSamples s w.id) s cnt s2 cnt2 hm
        have hmoved : ∀ ws ∈ s.samples,
            (((wellSamples s w.id).filter (fun ws2 => ws2.runId == some rid)).map
              (fun ws2 => ws2.id)).contains ws.id = true →
            ws.runId = some rid ∧ ws.wellId = w.id := by
          intro ws hws hc
          obtain ⟨ws2, hws2f, hid⟩ := List.mem_map.mp (List.elem_iff.mp hc)
          have hws2sl : ws2 ∈ wellSamples s w.id := (List.mem_filter.mp hws2f).1
          have hws2rid : (ws2.runId == some rid) = true := (List.mem_filter.mp hws2f).2
          have hws2s : ws2 ∈ s.samples := (List.mem_filter.mp hws2sl).1
          have hws2w : (ws2.wellId == w.id) = true := (List.mem_filter.mp hws2sl).2
          have heq : ws2 = ws := List.inj_on_of_nodup_map hsnd hws2s hws hid
          rw [← heq]
          exact ⟨eq_of_beq hws2rid, eq_of_beq hws2w⟩
        have hsnd2 : (s2.samples.map (fun ws => ws.id)).Nodup := by
          rw [hsam2, map_id_of_map_pair (updSet_map_pair s.samples _ twid)]
          exact hsnd
        have hLcons : (w :: rest).map (fun w2 => w2.id) =
            w.id :: rest.map (fun w2 => w2.id) := rfl
        have hwid_notin : w.id ∉ rest.map (fun w2 => w2.id) := by
          have := hLnd
          rw [hLcons] at this
          exact (List.nodup_cons.mp this).1
        have hLnd2 : (rest.map (fun w2 => w2.id)).Nodup := by
          have := hLnd
          rw [hLcons] at this
          exact (List.nodup_cons.mp this).2
        have hHc2 : ∀ w2 ∈ rest, ∀ t2, d.lookup (wellPos w2) = some t2 →
            t2 ∉ rest.map (fun w3 => w3.id) ∨ t2 = w2.id := by
          intro w2 hw2 t2 hl2
          rcases hHc w2 (List.mem_cons_of_mem w hw2) t2 hl2 with hno | heq
          · left
            intro hmem
            apply hno
            rw [hLcons]
            exact List.mem_cons_of_mem _ hmem
          · right
            exact heq
        obtain ⟨hcnt1, hpair1, hmem1⟩ := ih s2 cnt2 sA cntA h hsnd2 hLnd2 hHc2
        have htwid : twid ∉ rest.map (fun w2 => w2.id) := by
          rcases hHc w (List.mem_cons_self w rest) twid hlk with hno | heq
          · intro hmem
            apply hno
            rw [hLcons]
            exact List.mem_cons_of_mem _ hmem
          · rw [heq]
            exact hwid_notin
        refine ⟨?_, ?_, ?_⟩
        · have hpres : runCountIn s2.samples (rest.map (fun w2 => w2.id)) rid =
              runCountIn s.samples (rest.map (fun w2 => w2.id)) rid := by
            unfold runCountIn
            rw [hsam2]
            apply length_filter_updSet
            intro ws hws hc
            obtain ⟨hrid0, hwid0⟩ := hmoved ws hws hc
            have h1 : (rest.map (fun w2 => w2.id)).contains twid = false :=
              contains_eq_false_of_not_mem _ _ htwid
            have h2 : (rest.map (fun w2 => w2.id)).contains ws.wellId = false := by
              rw [hwid0]
              exact contains_eq_false_of_not_mem _ _ hwid_notin
            show (ws.runId == some rid && (rest.map (fun w2 => w2.id)).contains twid) =
              (ws.runId == some rid && (rest.map (fun w2 => w2.id)).contains ws.wellId)
            rw [h1, h2]
          have hdisj : ∀ a ∈ s.samples,
              ¬((a.runId == some rid && a.wellId == w.id) = true ∧
                (a.runId == some rid &&
                  (rest.map (fun w2 => w2.id)).contains a.wellId) = true) := by
            rintro a ha ⟨h1, h2⟩
            rw [Bool.and_eq_true] at h1 h2
            apply hwid_notin
            rw [← eq_of_beq h1.2]
            exact List.elem_iff.mp h2.2
          have hsplit : runCountIn s.samples ((w :: rest).map (fun w2 => w2.id)) rid =
              (s.samples.filter
                (fun ws => ws.runId == some rid && ws.wellId == w.id)).length +
              runCountIn s.samples (rest.map (fun w2 => w2.id)) rid := by
            unfold runCountIn
            rw [← length_filter_or_disjoint s.samples _ _ hdisj]
            apply congrArg List.length
            apply List.filter_congr
            intro ws _
            rw [hLcons, List.contains_cons]
            cases hb1 : (ws.runId == some rid) <;>
              cases hb2 : (ws.wellId == w.id) <;>
                cases hb3 : (rest.map (fun w2 => w2.id)).contains ws.wellId <;> rfl
          have hwell : (s.samples.filter
              (fun ws => ws.runId == some rid && ws.wellId == w.id)).length =
              ((wellSamples s w.id).filter (fun ws => ws.runId == some rid)).length := by
            unfold wellSamples
            rw [List.filter_filter]
          rw [hcnt1, hpres, hcnt2, hsplit, hwell]
          omega
        · rw [hpair1, hsam2]
          exact updSet_map_pair s.samples _ twid
        · intro ws hws hrid
          have hws2 := hmem1 ws hws hrid
          rw [hsam2] at hws2
          obtain ⟨ws0, hws0, hmap⟩ := List.mem_map.mp hws2
          by_cases hc : (((wellSamples s w.id).filter (fun ws2 => ws2.runId == some rid)).map
              (fun ws2 => ws2.id)).contains ws0.id = true
          · obtain ⟨hrid0, -⟩ := hmoved ws0 hws0 hc
            rw [if_pos hc] at hmap
            exfalso
            apply hrid
            rw [← hmap]
            show ws0.runId = some rid
            exact hrid0
          · rw [if_neg hc] at hmap
            rw [← hmap]
            exact hws0

theorem length_filter_eq_of_map_eq {la lb : List WellSample} (g : Option Nat → Bool)
    (h : la.map (fun ws => ws.runId) = lb.map (fun ws => ws.runId)) :
    (la.filter (fun ws => g ws.runId)).length = (lb.filter (fun ws => g ws.runId)).length := by
  induction la generalizing lb with
  | nil =>
    cases lb with
    | nil => rfl
    | cons b bs => cases h
  | cons a as ih =>
    cases lb with
    | nil => cases h
    | cons b bs =>
      simp only [List.map_cons, List.cons.injEq] at h
      obtain ⟨h1, h2⟩ := h
      rw [List.filter_cons, List.filter_cons, h1]
      by_cases hb : g b.runId = true
      · rw [if_pos hb, if_pos hb]
        simp only [List.length_cons]
        rw [ih h2]
      · rw [if_neg hb, if_neg hb]
        exact ih h2

theorem countMergedSamples_congr {sa sb : OmeroState}
    (h : sa.samples.map (fun ws => ws.runId) = sb.samples.map (fun ws => ws.runId))
    (rids : List Nat) :
    countMergedSamples sa rids = countMergedSamples sb rids := by
  unfold countMergedSamples
  exact length_filter_eq_of_map_eq
    (fun o => match o with | some r => rids.contains r | none => false) h

theorem countMergedSamples_nil (s : OmeroState) : countMergedSamples s [] = 0 := by
  unfold countMergedSamples
  have hfil : s.samples.filter
      (fun ws => match ws.runId with
        | some r => ([] : List Nat).contains r
        | none => false) = [] := by
    apply List.filter_eq_nil_iff.mpr
    intro a _
    rcases ho : a.runId with _ | r
    · exact fun hc => Bool.noConfusion hc
    · exact fun hc => Bool.noConfusion hc
  rw [hfil]
  rfl

theorem countMergedSamples_cons (s : OmeroState) (rid : Nat) (restIds : List Nat)
    (hnotin : rid ∉ restIds) :
    countMergedSamples s (rid :: restIds) =
      (s.samples.filter (fun ws => ws.runId == some rid)).length +
      countMergedSamples s restIds := by
  unfold countMergedSamples
  have hdisj : ∀ a ∈ s.samples,
      ¬((a.runId == some rid) = true ∧
        (match a.runId with
          | some r => restIds.contains r
          | none => false) = true) := by
    rintro a ha ⟨h1, h2⟩
    rcases ho : a.runId with _ | r
    · rw [ho] at h1
      exact Bool.noConfusion h1
    · rw [ho] at h1 h2
      have hr : r = rid := Option.some_inj.mp (eq_of_beq h1)
      apply hnotin
      rw [← hr]
      exact List.elem_iff.mp h2
  rw [← length_filter_or_disjoint s.samples _ _ hdisj]
  apply congrArg List.length
  apply List.filter_congr
  intro ws _
  rcases ho : ws.runId with _ | r
  · rfl
  · show (rid :: restIds).contains r = ((some r == some rid) || restIds.contains r)
    by_cases hb : (r == rid) = true
    · rw [List.contains_cons, hb, (show (some r == some rid) = true from hb)]
    · rw [Bool.not_eq_true] at hb
      rw [List.contains_cons, hb, (show (some r == some rid) = false from hb)]

theorem mem_plateWells_mono {sa sb : OmeroState} (ext : List Well)
    (hw : sb.wells = sa.wells ++ ext) (pid x : Nat)
    (h : x ∈ (plateWells sa pid).map (fun w => w.id)) :
    x ∈ (plateWells sb pid).map (fun w => w.id) := by
  unfold plateWells at h ⊢
  rw [hw, List.filter_append, List.map_append]
  exact List.mem_append.mpr (Or.inl h)

theorem lookup_mem (l : List ((Nat × Nat) × Nat)) (k : Nat × Nat) (v : Nat)
    (h : l.lookup k = some v) : (k, v) ∈ l := by
  induction l with
  | nil => cases h
  | cons e rest ih =>
    obtain ⟨k2, v2⟩ := e
    simp only [List.lookup] at h
    split at h
    · rename_i hk
      have hv : v2 = v := Option.some_inj.mp h
      rw [← hv, eq_of_beq hk]
      exact List.mem_cons_self _ _
    · exact List.mem_cons_of_mem _ (ih h)

theorem buildWellIndex_mem_snd (ws : List Well) (k : Nat × Nat) (v : Nat)
    (h : (k, v) ∈ buildWellIndex ws) : v ∈ ws.map (fun w => w.id) := by
  unfold buildWellIndex at h
  rw [List.mem_reverse] at h
  obtain ⟨w, hw, heq⟩ := List.mem_map.mp h
  obtain ⟨-, hv⟩ := Prod.mk.injEq .. ▸ heq
  rw [← hv]
  exact List.mem_map.mpr ⟨w, hw, rfl⟩

theorem lookup_eq_of_mem_of_nodup (l : List ((Nat × Nat) × Nat)) (k : Nat × Nat) (v : Nat)
    (hnd : (l.map Prod.fst).Nodup) (h : (k, v) ∈ l) : l.lookup k = some v := by
  induction l with
  | nil => cases h
  | cons e rest ih =>
    obtain ⟨k2, v2⟩ := e
    have hnd2 : (rest.map Prod.fst).Nodup := (List.nodup_cons.mp hnd).2
    have hk2notin : k2 ∉ rest.map Prod.fst := (List.nodup_cons.mp hnd).1
    rcases List.mem_cons.mp h with he | h2
    · obtain ⟨hk, hv⟩ := Prod.mk.injEq .. ▸ he
      simp only [List.lookup]
      rw [hk]
      simp [hv]
    · have hkne : ¬((k == k2) = true) := by
        intro hc
        apply hk2notin
        rw [← eq_of_beq hc]
        exact List.mem_map.mpr ⟨(k, v), h2, rfl⟩
      simp only [List.lookup]
      rw [Bool.not_eq_true] at hkne
      rw [hkne]
      exact ih hnd2 h2

theorem buildWellIndex_keys (ws : List Well) :
    (buildWellIndex ws).map Prod.fst = (ws.map wellPos).reverse := by
  unfold buildWellIndex
  rw [List.map_reverse, List.map_map]
  rfl

theorem lookup_buildWellIndex_self (ws : List Well) (w : Well)
    (hnd : (ws.map wellPos).Nodup) (hw : w ∈ ws) :
    (buildWellIndex ws).lookup (wellPos w) = some w.id := by
  apply lookup_eq_of_mem_of_nodup
  · rw [buildWellIndex_keys]
    exact List.nodup_reverse.mpr hnd
  · exact mem_buildWellIndex ws w hw

theorem foldRuns_count (tid : Nat) (pairs : List (Nat × Nat)) :
    ∀ s cnt s1 cnt1,
      foldRuns tid pairs (buildWellIndex (plateWells s tid)) s cnt = .ok (s1, cnt1) →
      ((plateWells s tid).map wellPos).Nodup →
      (s.wells.map (fun w => w.id)).Nodup →
      (s.samples.map (fun ws => ws.id)).Nodup →
      (pairs.map (fun pr => pr.2)).Nodup →
      (∀ ws ∈ s.samples, ∀ pr ∈ pairs, ws.runId = some pr.2 →
        ws.wellId ∈ (plateWells s pr.1).map (fun w => w.id)) →
      cnt1 = cnt + countMergedSamples s (pairs.map (fun pr => pr.2)) := by
  induction pairs with
  | nil =>
    intro s cnt s1 cnt1 h _ _ _ _ _
    simp only [foldRuns, Except.ok.injEq, Prod.mk.injEq] at h
    rw [List.map_nil, countMergedSamples_nil]
    omega
  | cons pr rest ih =>
    intro s cnt s1 cnt1 h hposnd hwnd hsnd hrnd hplace
    obtain ⟨pid, rid⟩ := pr
    simp only [foldRuns] at h
    split at h
    · exact Except.noConfusion h
    · rename_i sA cntA hm
      have hLnd : ((plateWells s pid).map (fun w => w.id)).Nodup := by
        have hsub : (plateWells s pid).Sublist s.wells := List.filter_sublist _
        exact hwnd.sublist (hsub.map _)
      have hHc : ∀ w ∈ plateWells s pid, ∀ twid,
          (buildWellIndex (plateWells s tid)).lookup (wellPos w) = some twid →
          twid ∉ (plateWells s pid).map (fun w2 => w2.id) ∨ twid = w.id := by
        intro w hw twid hlk
        by_cases hpt : pid = tid
        · subst hpt
          right
          rw [lookup_buildWellIndex_self _ w hposnd hw] at hlk
          exact (Option.some_inj.mp hlk).symm
        · left
          have hmem := lookup_mem _ _ _ hlk
          have hvid := buildWellIndex_mem_snd _ _ _ hmem
          exact plateWells_id_inj s hwnd tid pid (fun h2 => hpt h2.symm) twid hvid
      obtain ⟨hcntA, hpairA, hmemA⟩ :=
        migratePlateWells_spec rid _ (plateWells s pid) s cnt sA cntA hm hsnd hLnd hHc
      have hfull : runCountIn s.samples ((plateWells s pid).map (fun w => w.id)) rid =
          (s.samples.filter (fun ws => ws.runId == some rid)).length := by
        unfold runCountIn
        apply congrArg List.length
        apply List.filter_congr
        intro ws hws
        by_cases hr : (ws.runId == some rid) = true
        · have hmemw : ws.wellId ∈ (plateWells s pid).map (fun w => w.id) :=
            hplace ws hws (pid, rid) (List.mem_cons_self _ _) (eq_of_beq hr)
          have hcc : ((plateWells s pid).map (fun w => w.id)).contains ws.wellId = true :=
            List.elem_iff.mpr hmemw
          rw [hr, hcc]
          rfl
        · rw [Bool.not_eq_true] at hr
          rw [hr]
          rfl
      have hwA : sA.wells = s.wells :=
        (migratePlateWells_state rid _ (plateWells s pid) s cnt sA cntA hm).1
      have hw' : (reassignRun sA rid tid).wells = s.wells := hwA
      have hposnd' : ((plateWells (reassignRun sA rid tid) tid).map wellPos).Nodup := by
        rw [plateWells_congr hw']
        exact hposnd
      have hwnd' : ((reassignRun sA rid tid).wells.map (fun w => w.id)).Nodup := by
        rw [hw']
        exact hwnd
      have hsnd' : ((reassignRun sA rid tid).samples.map (fun ws => ws.id)).Nodup := by
        show (sA.samples.map (fun ws => ws.id)).Nodup
        rw [map_id_of_map_pair hpairA]
        exact hsnd
      have hrnd2 : (rid :: rest.map (fun pr2 => pr2.2)).Nodup := hrnd
      have hridnotin : rid ∉ rest.map (fun pr2 => pr2.2) := (List.nodup_cons.mp hrnd2).1
      have hrnd' : (rest.map (fun pr2 => pr2.2)).Nodup := (List.nodup_cons.mp hrnd2).2
      have hplace' : ∀ ws ∈ (reassignRun sA rid tid).samples, ∀ pr2 ∈ rest,
          ws.runId = some pr2.2 →
          ws.wellId ∈ (plateWells (reassignRun sA rid tid) pr2.1).map (fun w => w.id) := by
        intro ws hws pr2 hpr2 hwsrid
        have hne : ws.runId ≠ some rid := by
          rw [hwsrid]
          intro hcon
          apply hridnotin
          rw [← Option.some_inj.mp hcon]
          exact List.mem_map.mpr ⟨pr2, hpr2, rfl⟩
        have hwsS : ws ∈ s.samples := hmemA ws hws hne
        have hmem2 := hplace ws hwsS pr2 (List.mem_cons_of_mem _ hpr2) hwsrid
        rw [plateWells_congr hw']
        exact hmem2
      have hih := ih (reassignRun sA rid tid) cntA s1 cnt1 h hposnd' hwnd' hsnd' hrnd' hplace'
      have hcm : countMergedSamples (reassignRun sA rid tid) (rest.map (fun pr2 => pr2.2)) =
          countMergedSamples s (rest.map (fun pr2 => pr2.2)) :=
        countMergedSamples_congr (map_runId_of_map_pair hpairA) _
      have hcons : countMergedSamples s (rid :: rest.map (fun pr2 => pr2.2)) =
          (s.samples.filter (fun ws => ws.runId == some rid)).length +
          countMergedSamples s (rest.map (fun pr2 => pr2.2)) :=
        countMergedSamples_cons s rid _ hridnotin
      have hgoal : (((pid, rid) :: rest).map (fun pr2 => pr2.2)) =
          rid :: rest.map (fun pr2 => pr2.2) := rfl
      rw [hgoal, hih, hcm, hcons, hcntA, hfull]
      omega

/-- Claim C6: for every merge that completes, the migrated-image count
reported in the summary message equals the number of persisted samples
belonging to the merged runs — no sample dropped, none counted twice.
The hypotheses are the platform invariants of the resolved state: distinct
well ids below the id generator, distinct sample ids, distinct target well
positions, distinct run ids in the ordered work list, and every sample of
a merged run sitting in a well of the plate it is paired with. -/
theorem C6_sample_conservation
    (s : OmeroState) (tid : Nat) (ids : List Nat) (sk sw : String)
    (msg : String) (sFin s1 : OmeroState) (wl0 wl : List (Plate × Run))
    (hres : resolveWorkList s tid ids sk = .ok (s1, wl0))
    (hsort : sortWorkList sw wl0 = .ok wl)
    (hok : combine_plates s tid ids sk sw true = .ok (msg, sFin))
    (hrnd : (wl.map (fun pr => pr.2.id)).Nodup)
    (hwnd : (s1.wells.map (fun w => w.id)).Nodup)
    (hwfresh : ∀ w ∈ s1.wells, w.id < s1.nextId)
    (hsnd : (s1.samples.map (fun ws => ws.id)).Nodup)
    (htnd : ((plateWells s1 tid).map wellPos).Nodup)
    (hplace : ∀ ws ∈ s1.samples, ∀ pr ∈ wl, ws.runId = some pr.2.id →
        ws.wellId ∈ (plateWells s1 pr.1.id).map (fun w => w.id)) :
    ∃ k, msg = summaryMessage (countMergedSamples s1 (wl.map (fun pr => pr.2.id)))
      wl.length tid k := by
  unfold combine_plates at hok
  split at hok
  · exact Except.noConfusion hok
  · rename_i target hg
    split at hok
    · exact Except.noConfusion hok
    · rename_i s2x wl0x hresx
      rw [hres] at hresx
      simp only [Except.ok.injEq, Prod.mk.injEq] at hresx
      obtain ⟨hs2, hwl0⟩ := hresx
      subst hs2
      subst hwl0
      split at hok
      · exact Except.noConfusion hok
      · rename_i wlx hsortx
        rw [hsort] at hsortx
        simp only [Except.ok.injEq] at hsortx
        subst hsortx
        split at hok
        · exact Except.noConfusion hok
        · unfold mergePhase at hok
          rcases hcm : createMissingWells tid (wl.map (fun pr => pr.1.id))
              (s1, buildWellIndex (plateWells s1 tid), 0) with ⟨s2, d, k⟩
          rw [hcm] at hok
          simp only [] at hok
          split at hok
          · exact Except.noConfusion hok
          · rename_i s3 cnt hf
            simp only [Except.ok.injEq, Prod.mk.injEq] at hok
            obtain ⟨hmsg, hsfin⟩ := hok
            have hinv0 : CreateInv tid s1 (buildWellIndex (plateWells s1 tid)) :=
              ⟨rfl, htnd, hwnd, hwfresh⟩
            obtain ⟨⟨hd2, htnd2, hwnd2, hfresh2⟩, hsam2, hpl2, hrn2, hnx2, ext, hext, hextid⟩ :=
              createMissingWells_spec tid _ _ _ _ _ _ _ hcm hinv0
            rw [hd2] at hf
            have hsnd2 : (s2.samples.map (fun ws => ws.id)).Nodup := by
              rw [hsam2]
              exact hsnd
            have hrnd2 : ((wl.map (fun pr => (pr.1.id, pr.2.id))).map
                (fun pr => pr.2)).Nodup := by
              rw [List.map_map]
              exact hrnd
            have hplace2 : ∀ ws ∈ s2.samples,
                ∀ pr2 ∈ wl.map (fun pr => (pr.1.id, pr.2.id)), ws.runId = some pr2.2 →
                ws.wellId ∈ (plateWells s2 pr2.1).map (fun w => w.id) := by
              intro ws hws pr2 hpr2 hrid
              obtain ⟨pr, hpr, rfl⟩ := List.mem_map.mp hpr2
              have hws1 : ws ∈ s1.samples := by
                rw [← hsam2]
                exact hws
              have hm1 := hplace ws hws1 pr hpr hrid
              exact mem_plateWells_mono ext hext _ _ hm1
            have hcnt := foldRuns_count tid (wl.map (fun pr => (pr.1.id, pr.2.id)))
              s2 0 s3 cnt hf htnd2 hwnd2 hsnd2 hrnd2 hplace2
            have hmaps : ((wl.map (fun pr => (pr.1.id, pr.2.id))).map (fun pr2 => pr2.2)) =
                wl.map (fun pr => pr.2.id) := by
              rw [List.map_map]
              rfl
            have hcms : countMergedSamples s2
                ((wl.map (fun pr => (pr.1.id, pr.2.id))).map (fun pr2 => pr2.2)) =
                countMergedSamples s1 (wl.map (fun pr => pr.2.id)) := by
              have hmapeq : s2.samples.map (fun ws => ws.runId) =
                  s1.samples.map (fun ws => ws.runId) := by
                rw [hsam2]
              rw [countMergedSamples_congr hmapeq, hmaps]
            have hfinal : cnt = countMergedSamples s1 (wl.map (fun pr => pr.2.id)) := by
              rw [hcnt, hcms]
              omega
            refine ⟨k, ?_⟩
            rw [← hmsg, hfinal]

/-- Concrete use of the C6 theorem on the completed merge of `stC1`: the
message reports exactly the number of samples of the merged run 300. -/
theorem C6_sample_conservation_witness :
    ∃ k, "1 Images from 1 Runs merged into Plate:1." =
      summaryMessage (countMergedSamples stC1 [300]) 1 1 k :=
  C6_sample_conservation stC1 1 [2] "Plate" "Acquisition name"
    "1 Images from 1 Runs merged into Plate:1." stC5after stC1
    [({ id := 2, name := "S", screenId := some 10 },
      { id := 300, name := "R1", startTime := some 5, plateId := 2 })]
    [({ id := 2, name := "S", screenId := some 10 },
      { id := 300, name := "R1", startTime := some 5, plateId := 2 })]
    rfl rfl rfl (by decide) (by decide) (by decide) (by decide) (by decide) (by decide)

end MergePlateRun
